import Mathlib

/-!
Shallow embedding of the combat-log analysis pipeline of
`src/index.tsx` (FightReportAnalysis).

The embedding models rows as lists of string cells, JavaScript numbers
restricted to the integer literals appearing in the modelled log
dialects (`Number`/`parseFloat` parse failures become `none`, mirroring
`NaN`), and the accumulator state of `processFile` as an explicit record
threaded through a single forward pass over the rows.
-/

namespace FightReport

/-- Case-sensitive prefix test on character lists. -/
def startsWithL : List Char → List Char → Bool
  | [], _ => true
  | _ :: _, [] => false
  | p :: ps, c :: cs => p == c && startsWithL ps cs

/-- Case-insensitive prefix test on character lists (via `Char.toLower`). -/
def startsWithCIL : List Char → List Char → Bool
  | [], _ => true
  | _ :: _, [] => false
  | p :: ps, c :: cs => p.toLower == c.toLower && startsWithL ps cs

/-- Case-sensitive substring containment on character lists. -/
def containsL (hay pat : List Char) : Bool :=
  match hay with
  | [] => startsWithL pat []
  | _ :: t => startsWithL pat hay || containsL t pat

/-- JavaScript `String.prototype.includes`: case-sensitive substring test. -/
def containsCS (hay pat : String) : Bool :=
  containsL hay.data pat.data

/-- Case-insensitive substring test; models a `/i` regex made of a literal
alternative, as used by the header-detection regexes. -/
def containsCI (hay pat : String) : Bool :=
  containsL (hay.data.map Char.toLower) (pat.data.map Char.toLower)

/-- JavaScript `String.prototype.trim`, as structural list recursion
(drops whitespace from both ends). -/
def trimS (s : String) : String :=
  String.mk
    (((s.data.dropWhile Char.isWhitespace).reverse.dropWhile
        Char.isWhitespace).reverse)

/-- Numeric value of a digit run (the capture `(\d+)` fed to `parseInt`). -/
def digitsToNat (ds : List Char) : Nat :=
  ds.foldl (fun n c => n * 10 + (c.toNat - 48)) 0

/-- Drop a case-insensitive literal prefix, returning the remainder. -/
def dropLitCI : List Char → List Char → Option (List Char)
  | [], s => some s
  | _ :: _, [] => none
  | p :: ps, c :: cs => if p.toLower == c.toLower then dropLitCI ps cs else none

/-- Drop a case-sensitive literal prefix, returning the remainder. -/
def dropLit : List Char → List Char → Option (List Char)
  | [], s => some s
  | _ :: _, [] => none
  | p :: ps, c :: cs => if p == c then dropLit ps cs else none

/-- First position (left to right) at which a positional matcher fires;
models regex scanning for the leftmost match. -/
def scanFirst {α : Type} (f : List Char → Option α) : List Char → Option α
  | [] => f []
  | c :: t =>
    match f (c :: t) with
    | some r => some r
    | none => scanFirst f t

/-- Last position at which a positional matcher fires; models the greedy
`.*` prefix that commits to the last viable occurrence. -/
def scanLast {α : Type} (f : List Char → Option α) : List Char → Option α
  | [] => f []
  | c :: t =>
    match scanLast f t with
    | some r => some r
    | none => f (c :: t)

/-- Parse `= \d+` allowing no spaces, as in `LABEL=(\d+)`. -/
def eqDigitsAt (s : List Char) : Option Nat :=
  match s with
  | '=' :: r =>
    let ds := r.takeWhile Char.isDigit
    if ds.isEmpty then none else some (digitsToNat ds)
  | _ => none

/-- Positional matcher for `LABEL=(\d+)` (case-sensitive label). -/
def labelEqAt (label : List Char) (s : List Char) : Option Nat :=
  match dropLit label s with
  | some r => eqDigitsAt r
  | none => none

/-- In-cell matcher for the `/LABEL=(\d+)/` regexes (`施加伤害`,
`实际生命扣除`, `护盾扣除`, legacy `伤害`, `回复生命值`, `添加护盾值`):
leftmost full match, digits captured. -/
def labelNumMatch (label : String) (cell : String) : Option Nat :=
  scanFirst (labelEqAt label.data) cell.data

/-- Parse `\s*=\s*(\d+)` after a label. -/
def wsEqDigitsAt (s : List Char) : Option (List Char) :=
  match s.dropWhile Char.isWhitespace with
  | '=' :: r =>
    let r2 := r.dropWhile Char.isWhitespace
    let ds := r2.takeWhile Char.isDigit
    if ds.isEmpty then none else some ds
  | _ => none

/-- Positional matcher for `/uid\s*=\s*(\d+)/i`; the captured digit run is
kept as a string, since it is used as a map key. -/
def uidAt (s : List Char) : Option String :=
  match dropLitCI "uid".data s with
  | some r => (wsEqDigitsAt r).map fun ds => String.mk ds
  | none => none

/-- In-cell matcher for `/uid\s*=\s*(\d+)/i`. -/
def uidMatch (cell : String) : Option String :=
  scanFirst uidAt cell.data

/-- Positional matcher for `=>\s*(\d+)`. -/
def arrowDigitsAt (s : List Char) : Option Nat :=
  match s with
  | '=' :: '>' :: r =>
    let r2 := r.dropWhile Char.isWhitespace
    let ds := r2.takeWhile Char.isDigit
    if ds.isEmpty then none else some (digitsToNat ds)
  | _ => none

/-- In-cell matcher for `/变动情况.*=>\s*(\d+)/`: after the literal label,
the greedy `.*` commits to the last `=>`-number occurrence. -/
def hpChangeMatch (cell : String) : Option Nat :=
  scanFirst
    (fun s =>
      match dropLit "变动情况".data s with
      | some r => scanLast arrowDigitsAt r
      | none => none)
    cell.data

/-- The label alternatives of the generic hp regex, in source order
(`HP|hp|Health|current_hp|curhp|生命`, under `/i`). -/
def hpLabels : List String := ["hp", "health", "current_hp", "curhp", "生命"]

/-- Positional matcher for the label-and-value part of
`/(?:HP|hp|Health|current_hp|curhp|生命)\s*=\s*(\d+)/i`. -/
def hpLabelValueAt (s : List Char) : Option Nat :=
  hpLabels.foldl
    (fun acc label =>
      match acc with
      | some r => some r
      | none =>
        match dropLitCI label.data s with
        | some r => (wsEqDigitsAt r).map digitsToNat
        | none => none)
    none

/-- The boundary class `[\s,;{("]` of the generic hp regex. -/
def isHpBoundary (c : Char) : Bool :=
  c.isWhitespace || c == ',' || c == ';' || c == '\x7b' || c == '(' || c == '"'

/-- Scan for the leftmost position that sits at the start of the cell or
right after a boundary character, and at which the matcher fires. -/
def scanBoundary {α : Type} (f : List Char → Option α) : Bool → List Char → Option α
  | ok, [] => if ok then f [] else none
  | ok, c :: t =>
    match (if ok then f (c :: t) else none) with
    | some r => some r
    | none => scanBoundary f (isHpBoundary c) t

/-- In-cell matcher for the full generic hp regex
`/(?:^|[\s,;{("])(?:HP|hp|Health|current_hp|curhp|生命)\s*=\s*(\d+)/i`. -/
def hpGenericMatch (cell : String) : Option Nat :=
  scanBoundary hpLabelValueAt true cell.data

/-- First cell of a row on which an in-cell matcher fires (the
`for … of values { match; break }` loops). -/
def firstMatch {α : Type} (f : String → Option α) : List String → Option α
  | [] => none
  | c :: t =>
    match f c with
    | some r => some r
    | none => firstMatch f t

/-- Last cell of a row on which an in-cell matcher fires (the damage loop
keeps overwriting without `break`). -/
def lastMatch {α : Type} (f : String → Option α) (cells : List String) : Option α :=
  cells.foldl
    (fun acc c =>
      match f c with
      | some r => some r
      | none => acc)
    none

/-- JavaScript `Number(string)` restricted to integer literals: trims, maps
the empty string to `0`, otherwise requires the whole string to be an
optionally signed digit run; every other string is `NaN` (`none`). -/
def jsNumber (s : String) : Option Int :=
  let t := trimS s
  if t.isEmpty then some 0
  else
    let parseAll : List Char → Option Int := fun l =>
      if l.isEmpty then none
      else if l.all Char.isDigit then some (Int.ofNat (digitsToNat l))
      else none
    match t.data with
    | '-' :: rest => (parseAll rest).map Int.neg
    | '+' :: rest => parseAll rest
    | l => parseAll l

/-- JavaScript `parseFloat(string)` restricted to integer prefixes: skips
leading whitespace, parses the longest optionally signed digit prefix,
`NaN` (`none`) if there is none. -/
def jsParseFloat (s : String) : Option Int :=
  let l := s.data.dropWhile Char.isWhitespace
  let pre : List Char → Option Int := fun r =>
    let ds := r.takeWhile Char.isDigit
    if ds.isEmpty then none else some (Int.ofNat (digitsToNat ds))
  match l with
  | '-' :: r => (pre r).map Int.neg
  | '+' :: r => pre r
  | _ => pre l

/-- `Number(row[i])`: an out-of-range access is `undefined`, and
`Number(undefined)` is `NaN`. -/
def jsNumberCell (c : Option String) : Option Int :=
  match c with
  | some s => jsNumber s
  | none => none

/-- `String(row[i])`: an out-of-range access stringifies to
`"undefined"`. -/
def cellStr (c : Option String) : String :=
  match c with
  | some s => s
  | none => "undefined"

/-! ## Data model (the `interface` declarations of the source) -/

/-- `LogEntry` of the source: one observed health snapshot. -/
structure LogEntry where
  time : Int
  unit : String
  hp : Int
  originalRow : List String
deriving DecidableEq, Repr

/-- `SkillEntry` of the source: one skill-cast event. -/
structure SkillEntry where
  time : Int
  unit : String
  skill : String
deriving DecidableEq, Repr

/-- `EffectDamageEntry` of the source. -/
structure EffectDamageEntry where
  time : Int
  unit : String
  effect : String
  rawDamage : Nat
  hpDeduction : Nat
  shieldDeduction : Nat
deriving DecidableEq, Repr

/-- `EffectHealingEntry` of the source. -/
structure EffectHealingEntry where
  time : Int
  unit : String
  effect : String
  healing : Nat
deriving DecidableEq, Repr

/-- `EffectShieldEntry` of the source. -/
structure EffectShieldEntry where
  time : Int
  unit : String
  effect : String
  shieldValue : Nat
deriving DecidableEq, Repr

/-- The mutable accumulators of `processFile`, made explicit: the five
fact collections, the insertion-ordered actor set, the `uid -> name`
identity table, and the running time bounds (`none` models the
`Infinity` / `-Infinity` sentinels before any fact is recorded). -/
structure PState where
  entries : List LogEntry
  skillEntries : List SkillEntry
  effectDamageEntries : List EffectDamageEntry
  effectHealingEntries : List EffectHealingEntry
  effectShieldEntries : List EffectShieldEntry
  units : List String
  unitMap : List (String × String)
  tmin : Option Int
  tmax : Option Int
deriving DecidableEq, Repr

def initState : PState :=
  ⟨[], [], [], [], [], [], [], none, none⟩

/-- `ProcessedData` of the source. -/
structure ProcessedData where
  entries : List LogEntry
  skillEntries : List SkillEntry
  effectDamageEntries : List EffectDamageEntry
  effectHealingEntries : List EffectHealingEntry
  effectShieldEntries : List EffectShieldEntry
  units : List String
  timeRange : Option Int × Option Int
deriving DecidableEq, Repr

/-- The error outcomes `processFile` reports through `setError`:
the empty-file message, the missing-standard-columns message, and the
no-valid-data message (which carries the parsed row count and tells the
user to retry with another character encoding). -/
inductive IngestError where
  | emptyFile : IngestError
  | schemaError : IngestError
  | noData (rowCount : Nat) : IngestError
deriving DecidableEq, Repr

/-! ## Set / map helpers -/

/-- `Set.add`: JavaScript sets keep insertion order and ignore
duplicates. -/
def addUnit (us : List String) (u : String) : List String :=
  if us.contains u then us else us ++ [u]

/-- `Map.get` / JS object read, as an association-list lookup. -/
def lookupA {α : Type} : List (String × α) → String → Option α
  | [], _ => none
  | (k', v') :: t, k => if k' == k then some v' else lookupA t k

/-- `Map.set` / JS object write: overwrite in place or append. -/
def insertA {α : Type} : List (String × α) → String → α → List (String × α)
  | [], k, v => [(k, v)]
  | (k', v') :: t, k, v =>
    if k' == k then (k, v) :: t else (k', v') :: insertA t k v

/-- `if (time < minTime) minTime = time` against the `Infinity`
sentinel. -/
def widenMin (m : Option Int) (t : Int) : Option Int :=
  match m with
  | none => some t
  | some a => some (min a t)

/-- `if (time > maxTime) maxTime = time` against the `-Infinity`
sentinel. -/
def widenMax (m : Option Int) (t : Int) : Option Int :=
  match m with
  | none => some t
  | some a => some (max a t)

/-! ## Format detection and standard-mode column resolution -/

/-- Detection category `/time|date|timestamp/i`. -/
def timeLikeDet (c : String) : Bool :=
  containsCI c "time" || containsCI c "date" || containsCI c "timestamp"

/-- Detection category `/unit|name|source|player/i`. -/
def unitLikeDet (c : String) : Bool :=
  containsCI c "unit" || containsCI c "name" || containsCI c "source" ||
    containsCI c "player"

/-- Detection category `/hp|health|life/i`. -/
def healthLikeDet (c : String) : Bool :=
  containsCI c "hp" || containsCI c "health" || containsCI c "life"

/-- `hasStandardHeaders`: the first row selects Standard-Header mode iff
it has a time-like, a unit-like and a health-like cell. -/
def hasStandardHeaders (row : List String) : Bool :=
  row.any timeLikeDet && row.any unitLikeDet && row.any healthLikeDet

/-- Column resolution `/time|date|timestamp|tick|seconds/i`. -/
def timeLikeRes (c : String) : Bool :=
  containsCI c "time" || containsCI c "date" || containsCI c "timestamp" ||
    containsCI c "tick" || containsCI c "seconds"

/-- Column resolution `/unit|name|source|player|actor|target/i`. -/
def unitLikeRes (c : String) : Bool :=
  containsCI c "unit" || containsCI c "name" || containsCI c "source" ||
    containsCI c "player" || containsCI c "actor" || containsCI c "target"

/-- Column resolution `/hp|health|life|current_hp|curhp/i`. -/
def healthLikeRes (c : String) : Bool :=
  containsCI c "hp" || containsCI c "health" || containsCI c "life" ||
    containsCI c "current_hp" || containsCI c "curhp"

/-- `findIndex` for the time column (`none` models `-1`). -/
def findTimeIdx (row : List String) : Option Nat :=
  row.findIdx? timeLikeRes

/-- `findIndex` for the unit column. -/
def findUnitIdx (row : List String) : Option Nat :=
  row.findIdx? unitLikeRes

/-- `findIndex` for the hp column. -/
def findHpIdx (row : List String) : Option Nat :=
  row.findIdx? healthLikeRes

/-! ## Standard-mode row processing -/

/-- One standard-mode data row: parse time and hp as `Number`, trim the
unit; accept only if both numbers parse and the unit is non-empty. -/
def standardRow (timeIdx unitIdx hpIdx : Nat) (row : List String) :
    Option LogEntry :=
  let time := jsNumberCell (row.get? timeIdx)
  let unit := trimS (cellStr (row.get? unitIdx))
  let hp := jsNumberCell (row.get? hpIdx)
  match time, hp with
  | some t, some h => if unit.isEmpty then none else some ⟨t, unit, h, row⟩
  | _, _ => none

/-- Accumulate one standard-mode row into the state. -/
def stdStep (timeIdx unitIdx hpIdx : Nat) (s : PState) (row : List String) :
    PState :=
  match standardRow timeIdx unitIdx hpIdx row with
  | some e =>
    { s with
      entries := s.entries ++ [e]
      units := addUnit s.units e.unit
      tmin := widenMin s.tmin e.time
      tmax := widenMax s.tmax e.time }
  | none => s

/-! ## Narrative-mode row processing -/

/-- `values[2].trim()` guarded by `values.length > 2`. -/
def eventTypeOf (values : List String) : String :=
  if values.length > 2 then trimS (values.getD 2 "") else ""

/-- Row time: `parseFloat(values[0])`, falling back to the zero-based
row index when unparseable. -/
def narrTime (idx : Nat) (values : List String) : Int :=
  match values.get? 0 with
  | some c => (jsParseFloat c).getD (idx : Int)
  | none => (idx : Int)

/-- Skill-cast parsing: `时间, 系统时间, 技能释放, UnitName, SkillName`. -/
def stepSkill (s : PState) (t : Int) (values : List String) (et : String) :
    PState :=
  if containsCS et "技能释放" && values.length > 4 then
    let u := trimS (values.getD 3 "")
    let sk := trimS (values.getD 4 "")
    if !u.isEmpty && !sk.isEmpty then
      { s with
        skillEntries := s.skillEntries ++ [⟨t, u, sk⟩]
        units := addUnit s.units u
        tmin := widenMin s.tmin t
        tmax := widenMax s.tmax t }
    else s
  else s

/-- The `施加伤害` figure after the backward-compatibility fallback to
the legacy `伤害=` field. -/
def rawDamageOf (values : List String) : Nat :=
  match lastMatch (labelNumMatch "施加伤害") values with
  | some r => r
  | none => (lastMatch (labelNumMatch "伤害") values).getD 0

/-- `foundDamage` after both scans. -/
def foundDamageOf (values : List String) : Bool :=
  (lastMatch (labelNumMatch "施加伤害") values).isSome ||
    (lastMatch (labelNumMatch "伤害") values).isSome

/-- Effect-trigger damage sub-case: at least 8 cells, `values[4]` equal
to `伤害目标` after trimming; magnitudes scanned across every cell; the
fact needs a source unit, an effect name and a raw-or-legacy damage
figure. -/
def stepDamage (s : PState) (t : Int) (values : List String) : PState :=
  if values.length > 7 && (trimS (values.getD 4 "") == "伤害目标") then
    let u := trimS (values.getD 3 "")
    let effectName := trimS (values.getD 6 "")
    if !u.isEmpty && !effectName.isEmpty && foundDamageOf values then
      { s with
        effectDamageEntries := s.effectDamageEntries ++
          [⟨t, u, effectName, rawDamageOf values,
            (lastMatch (labelNumMatch "实际生命扣除") values).getD 0,
            (lastMatch (labelNumMatch "护盾扣除") values).getD 0⟩]
        units := addUnit s.units u
        tmin := widenMin s.tmin t
        tmax := widenMax s.tmax t }
    else s
  else s

/-- Effect-trigger healing sub-case: first cell carrying `回复生命值=`. -/
def stepHealing (s : PState) (t : Int) (values : List String) : PState :=
  match firstMatch (labelNumMatch "回复生命值") values with
  | some healing =>
    let u := trimS (values.getD 3 "")
    let effectName := trimS (values.getD 6 "")
    if !u.isEmpty && !effectName.isEmpty then
      { s with
        effectHealingEntries := s.effectHealingEntries ++
          [⟨t, u, effectName, healing⟩]
        units := addUnit s.units u
        tmin := widenMin s.tmin t
        tmax := widenMax s.tmax t }
    else s
  | none => s

/-- Effect-trigger shield sub-case: first cell carrying `添加护盾值=`. -/
def stepShieldAdd (s : PState) (t : Int) (values : List String) : PState :=
  match firstMatch (labelNumMatch "添加护盾值") values with
  | some shieldValue =>
    let u := trimS (values.getD 3 "")
    let effectName := trimS (values.getD 6 "")
    if !u.isEmpty && !effectName.isEmpty then
      { s with
        effectShieldEntries := s.effectShieldEntries ++
          [⟨t, u, effectName, shieldValue⟩]
        units := addUnit s.units u
        tmin := widenMin s.tmin t
        tmax := widenMax s.tmax t }
    else s
  | none => s

/-- The whole effect-trigger block (damage, then healing, then shield),
guarded by the event type and `values.length > 6`. -/
def stepEffect (s : PState) (t : Int) (values : List String) (et : String) :
    PState :=
  if containsCS et "效果触发" && values.length > 6 then
    stepShieldAdd (stepHealing (stepDamage s t values) t values) t values
  else s

/-- The hp value a row yields: health-change rows prefer the
before/after pattern and fall back to the generic pattern; unit-create
rows use only the generic pattern. -/
def rowHp (et : String) (values : List String) : Option Nat :=
  if containsCS et "血量变化" then
    match firstMatch hpChangeMatch values with
    | some h => some h
    | none => firstMatch hpGenericMatch values
  else if containsCS et "单位创建" then
    firstMatch hpGenericMatch values
  else none

/-- The candidate display name of a health row: `values[3]` trimmed,
rejected if it carries an assignment token or an opening brace. -/
def candidateName (values : List String) : String :=
  if values.length > 3 then
    let p := trimS (values.getD 3 "")
    if !p.isEmpty && !containsCS p "=" && !containsCS p "\x7b" then p else ""
  else ""

/-- The identifier a row yields: first cell matching `uid\s*=\s*(\d+)`. -/
def rowUid (values : List String) : Option String :=
  firstMatch uidMatch values

/-- The candidate name of the row, gated on the health event types (the
`unit` variable right after name extraction). -/
def unit0Of (et : String) (values : List String) : String :=
  if containsCS et "血量变化" || containsCS et "单位创建" then
    candidateName values
  else ""

/-- The identity table after the row's binding step:
`if (uid && unit) unitMap.set(uid, unit)`. -/
def map1Of (m : List (String × String)) (et : String) (values : List String) :
    List (String × String) :=
  match rowUid values with
  | some u =>
    if !(unit0Of et values).isEmpty then insertA m u (unit0Of et values) else m
  | none => m

/-- The unit after identifier resolution:
`if (!unit && uid && unitMap.has(uid)) unit = unitMap.get(uid)`. -/
def unit1Of (m : List (String × String)) (et : String) (values : List String) :
    String :=
  if (unit0Of et values).isEmpty then
    match rowUid values with
    | some u => (lookupA (map1Of m et values) u).getD ""
    | none => ""
  else unit0Of et values

/-- The unit after the known-name substring fallback (tried only when a
health value was found and some actors are already known). -/
def unit2Of (s : PState) (et : String) (values : List String) : String :=
  if (unit1Of s.unitMap et values).isEmpty && !s.units.isEmpty &&
      (rowHp et values).isSome then
    match s.units.find? (fun ku => values.any fun v => containsCS v ku) with
    | some ku => ku
    | none => ""
  else unit1Of s.unitMap et values

/-- Health extraction, identity binding and resolution, and the final
health-fact emission (the tail of the narrative per-row handler). -/
def stepHp (s : PState) (t : Int) (values : List String) (et : String)
    (row : List String) : PState :=
  match rowHp et values with
  | some h =>
    if !(unit2Of s et values).isEmpty then
      { s with
        unitMap := map1Of s.unitMap et values
        entries := s.entries ++ [⟨t, unit2Of s et values, (h : Int), row⟩]
        units := addUnit s.units (unit2Of s et values)
        tmin := widenMin s.tmin t
        tmax := widenMax s.tmax t }
    else { s with unitMap := map1Of s.unitMap et values }
  | none => { s with unitMap := map1Of s.unitMap et values }

/-- One narrative-mode row, in source order: skill parsing, the
effect-trigger block, then health parsing and identity resolution. -/
def narrativeStep (s : PState) (idx : Nat) (row : List String) : PState :=
  let t := narrTime idx row
  let et := eventTypeOf row
  stepHp (stepEffect (stepSkill s t row et) t row et) t row et row

/-- `rawRows.forEach((row, idx) => ...)` over the whole file. -/
def narrativeFoldAux : Nat → List (List String) → PState → PState
  | _, [], s => s
  | i, r :: rs, s => narrativeFoldAux (i + 1) rs (narrativeStep s i r)

def narrativeFold (rows : List (List String)) : PState :=
  narrativeFoldAux 0 rows initState

/-! ## Assembling ingestion -/

/-- Lexicographic code-point comparison, the order of JavaScript
`Array.prototype.sort()` on the strings appearing in these logs. -/
def lexLe : List Char → List Char → Bool
  | [], _ => true
  | _ :: _, [] => false
  | a :: as_, b :: bs =>
    if a.val < b.val then true
    else if b.val < a.val then false
    else lexLe as_ bs

def strLe (a b : String) : Bool :=
  lexLe a.data b.data

def insertStr (x : String) : List String → List String
  | [] => [x]
  | y :: t => if strLe x y then x :: y :: t else y :: insertStr x t

/-- `Array.from(unitsSet).sort()`. -/
def sortStrings (l : List String) : List String :=
  l.foldr insertStr []

/-- Are all five fact collections empty? -/
def allEmpty (s : PState) : Bool :=
  s.entries.isEmpty && s.skillEntries.isEmpty &&
    s.effectDamageEntries.isEmpty && s.effectHealingEntries.isEmpty &&
    s.effectShieldEntries.isEmpty

/-- Are all five fact collections of a successful result empty? -/
def allEmptyData (d : ProcessedData) : Bool :=
  d.entries.isEmpty && d.skillEntries.isEmpty &&
    d.effectDamageEntries.isEmpty && d.effectHealingEntries.isEmpty &&
    d.effectShieldEntries.isEmpty

/-- The final check of `processFile`: no facts at all is a fatal
no-data error carrying the row count; otherwise the accumulated state is
packaged with the sorted actor list and the observed time range. -/
def finish (s : PState) (rowCount : Nat) : Except IngestError ProcessedData :=
  if allEmpty s then .error (.noData rowCount)
  else
    .ok ⟨s.entries, s.skillEntries, s.effectDamageEntries,
      s.effectHealingEntries, s.effectShieldEntries,
      sortStrings s.units, (s.tmin, s.tmax)⟩

/-- The state after the single forward pass over the rows, per detected
mode (the unreachable standard-mode branch with an unresolved column is
mapped to the empty state). -/
def runState (rows : List (List String)) : PState :=
  match rows with
  | [] => initState
  | first :: rest =>
    if hasStandardHeaders first then
      match findTimeIdx first, findUnitIdx first, findHpIdx first with
      | some ti, some ui, some hi => rest.foldl (stdStep ti ui hi) initState
      | _, _, _ => initState
    else narrativeFold (first :: rest)

/-- `processFile` after CSV decoding: empty input is rejected outright;
a standard-header first row selects standard mode (failing with a schema
error if a column cannot be resolved); otherwise every row goes through
the narrative pipeline; a run without any fact fails with the no-data
error. -/
def ingest (rows : List (List String)) : Except IngestError ProcessedData :=
  match rows with
  | [] => .error .emptyFile
  | first :: rest =>
    if hasStandardHeaders first then
      match findTimeIdx first, findUnitIdx first, findHpIdx first with
      | some ti, some ui, some hi =>
        finish (rest.foldl (stdStep ti ui hi) initState) (first :: rest).length
      | _, _, _ => .error .schemaError
    else finish (narrativeFold (first :: rest)) (first :: rest).length

/-! ## Health-chart aggregation (`HpChart`) -/

/-- Insertion of an integer into an ascending list. -/
def insertInt (x : Int) : List Int → List Int
  | [] => [x]
  | y :: t => if x ≤ y then x :: y :: t else y :: insertInt x t

def sortInts (l : List Int) : List Int :=
  l.foldr insertInt []

/-- First-occurrence deduplication (`Array.from(new Set(...))`). -/
def dedupFirst (l : List Int) : List Int :=
  (l.foldl (fun acc t => if acc.contains t then acc else acc ++ [t]) [])

/-- `Array.from(new Set(times)).sort((a, b) => a - b)`. -/
def sortedTimes (l : List Int) : List Int :=
  sortInts (dedupFirst l)

/-- The `currentHp` record and point construction of `HpChart`, one
timestamp at a time: replay all events at the timestamp into the
forward-fill record, emit a point holding every selected unit that has a
current value, and drop the point if none does. -/
def hpPoints (rel : List LogEntry) (sel : List String) :
    List (String × Int) → List Int → List (Int × List (String × Int))
  | _, [] => []
  | m, t :: ts =>
    let m1 := (rel.filter fun e => e.time == t).foldl
      (fun mm e => insertA mm e.unit e.hp) m
    let vals := sel.filterMap fun u => (lookupA m1 u).map fun v => (u, v)
    if vals.isEmpty then hpPoints rel sel m1 ts
    else (t, vals) :: hpPoints rel sel m1 ts

/-- `chartData` of `HpChart`: filter to the selected units, take the
sorted distinct timestamps of those facts, and forward-fill. -/
def hpChartData (data : List LogEntry) (sel : List String) :
    List (Int × List (String × Int)) :=
  if sel.isEmpty || data.isEmpty then []
  else
    let rel := data.filter fun e => sel.contains e.unit
    hpPoints rel sel [] (sortedTimes (rel.map fun e => e.time))

/-- The most recently observed fact in a list: the one with the largest
time, the later list position winning ties (exactly how sequential
replay resolves them). -/
def ffStep (a : Option LogEntry) (e : LogEntry) : Option LogEntry :=
  match a with
  | none => some e
  | some x => if x.time ≤ e.time then some e else some x

def ffEntry (l : List LogEntry) : Option LogEntry :=
  l.foldl ffStep none

/-! ## Damage sub-metric toggles (`App`) -/

/-- The three damage-statistics checkboxes
(`dmgModeRaw`, `dmgModeHp`, `dmgModeShield`). -/
structure DmgFlags where
  raw : Bool
  hp : Bool
  shield : Bool
deriving DecidableEq, Repr

/-- `useState(true) / useState(false) / useState(false)`. -/
def initFlags : DmgFlags :=
  ⟨true, false, false⟩

/-- `handleRawChange`: the conditions read the pre-event state, the
writes land together. -/
def handleRawChange (s : DmgFlags) (checked : Bool) : DmgFlags :=
  if checked then ⟨true, false, false⟩
  else if !s.hp && !s.shield then ⟨true, s.hp, s.shield⟩
  else ⟨false, s.hp, s.shield⟩

/-- `handleHpChange`. -/
def handleHpChange (s : DmgFlags) (checked : Bool) : DmgFlags :=
  if checked then ⟨false, true, s.shield⟩
  else if !s.shield then ⟨true, false, s.shield⟩
  else ⟨s.raw, false, s.shield⟩

/-- `handleShieldChange`. -/
def handleShieldChange (s : DmgFlags) (checked : Bool) : DmgFlags :=
  if checked then ⟨false, s.hp, true⟩
  else if !s.hp then ⟨true, s.hp, false⟩
  else ⟨s.raw, s.hp, false⟩

/-- One user toggle event on one of the three checkboxes. -/
inductive ToggleEvent where
  | raw (checked : Bool)
  | hp (checked : Bool)
  | shield (checked : Bool)
deriving DecidableEq, Repr

def applyToggle (s : DmgFlags) : ToggleEvent → DmgFlags
  | .raw c => handleRawChange s c
  | .hp c => handleHpChange s c
  | .shield c => handleShieldChange s c

def applyToggles (s : DmgFlags) (evs : List ToggleEvent) : DmgFlags :=
  evs.foldl applyToggle s

/-! ## Spec-side detector (for the refinement comparison of claim C2) -/

/-- Modelled from the spec's words, for comparison with the source's
`hasStandardHeaders`: the spec's example unit vocabulary is
`{unit, name, source, player, actor, target}`. -/
def specUnitLikeDet (c : String) : Bool :=
  containsCI c "unit" || containsCI c "name" || containsCI c "source" ||
    containsCI c "player" || containsCI c "actor" || containsCI c "target"

/-- Modelled from the spec's words (§4.1): Standard-Header mode iff the
first row has a time-like, a unit-like (six-word vocabulary) and a
health-like cell. -/
def specHasStandardHeaders (row : List String) : Bool :=
  row.any timeLikeDet && row.any specUnitLikeDet && row.any healthLikeDet

/-! ## Proof-side notions: time bounds, forward-fill value, demo data -/

/-- Both time bounds are set and bracket `t`. -/
def boundsOk (mn mx : Option Int) (t : Int) : Prop :=
  ∃ a b, mn = some a ∧ mx = some b ∧ a ≤ t ∧ t ≤ b

/-- Every time in every fact collection lies within the running time
bounds. -/
def InvT (s : PState) : Prop :=
  (∀ e ∈ s.entries, boundsOk s.tmin s.tmax e.time) ∧
  (∀ e ∈ s.skillEntries, boundsOk s.tmin s.tmax e.time) ∧
  (∀ e ∈ s.effectDamageEntries, boundsOk s.tmin s.tmax e.time) ∧
  (∀ e ∈ s.effectHealingEntries, boundsOk s.tmin s.tmax e.time) ∧
  (∀ e ∈ s.effectShieldEntries, boundsOk s.tmin s.tmax e.time)

/-- The last element of a list, as a left fold. -/
def lastOpt {α : Type} (l : List α) : Option α :=
  l.foldl (fun _ e => some e) none

/-- `ffStep` lifted to two optional candidates: keep the one observed at
the later time, the right argument winning ties. -/
def mstep (a b : Option LogEntry) : Option LogEntry :=
  match b with
  | none => a
  | some e => ffStep a e

/-- Concrete health facts used to exercise the forward-fill law. -/
def demoData : List LogEntry :=
  [⟨0, "U", 100, []⟩, ⟨10, "U", 80, []⟩]

/-- `t` is at or before an optional bound (`none` bounds nothing). -/
def leOB (t : Int) : Option Int → Bool
  | none => false
  | some x => t ≤ x

/-! ## Component-preservation lemmas for the narrative sub-steps -/

@[simp]
lemma stepSkill_dmg (s : PState) (t : Int) (v : List String) (et : String) :
    (stepSkill s t v et).effectDamageEntries = s.effectDamageEntries := by
  unfold stepSkill
  split
  · dsimp only
    split <;> rfl
  · rfl

@[simp]
lemma stepSkill_entries (s : PState) (t : Int) (v : List String) (et : String) :
    (stepSkill s t v et).entries = s.entries := by
  unfold stepSkill
  split
  · dsimp only
    split <;> rfl
  · rfl

@[simp]
lemma stepSkill_unitMap (s : PState) (t : Int) (v : List String) (et : String) :
    (stepSkill s t v et).unitMap = s.unitMap := by
  unfold stepSkill
  split
  · dsimp only
    split <;> rfl
  · rfl

@[simp]
lemma stepDamage_entries (s : PState) (t : Int) (v : List String) :
    (stepDamage s t v).entries = s.entries := by
  unfold stepDamage
  split
  · dsimp only
    split <;> rfl
  · rfl

@[simp]
lemma stepDamage_unitMap (s : PState) (t : Int) (v : List String) :
    (stepDamage s t v).unitMap = s.unitMap := by
  unfold stepDamage
  split
  · dsimp only
    split <;> rfl
  · rfl

@[simp]
lemma stepHealing_dmg (s : PState) (t : Int) (v : List String) :
    (stepHealing s t v).effectDamageEntries = s.effectDamageEntries := by
  unfold stepHealing
  split
  · dsimp only
    split <;> rfl
  · rfl

@[simp]
lemma stepHealing_entries (s : PState) (t : Int) (v : List String) :
    (stepHealing s t v).entries = s.entries := by
  unfold stepHealing
  split
  · dsimp only
    split <;> rfl
  · rfl

@[simp]
lemma stepHealing_unitMap (s : PState) (t : Int) (v : List String) :
    (stepHealing s t v).unitMap = s.unitMap := by
  unfold stepHealing
  split
  · dsimp only
    split <;> rfl
  · rfl

@[simp]
lemma stepShieldAdd_dmg (s : PState) (t : Int) (v : List String) :
    (stepShieldAdd s t v).effectDamageEntries = s.effectDamageEntries := by
  unfold stepShieldAdd
  split
  · dsimp only
    split <;> rfl
  · rfl

@[simp]
lemma stepShieldAdd_entries (s : PState) (t : Int) (v : List String) :
    (stepShieldAdd s t v).entries = s.entries := by
  unfold stepShieldAdd
  split
  · dsimp only
    split <;> rfl
  · rfl

@[simp]
lemma stepShieldAdd_unitMap (s : PState) (t : Int) (v : List String) :
    (stepShieldAdd s t v).unitMap = s.unitMap := by
  unfold stepShieldAdd
  split
  · dsimp only
    split <;> rfl
  · rfl

@[simp]
lemma stepEffect_dmg_of_guard (s : PState) (t : Int) (v : List String)
    (et : String) (hguard : ¬(containsCS et "效果触发" && decide (v.length > 6)) = true) :
    stepEffect s t v et = s := by
  unfold stepEffect
  split
  · rename_i hc
    exact absurd (by simpa using hc) (by simpa using hguard)
  · rfl

@[simp]
lemma stepEffect_entries (s : PState) (t : Int) (v : List String) (et : String) :
    (stepEffect s t v et).entries = s.entries := by
  unfold stepEffect
  split
  · simp
  · rfl

@[simp]
lemma stepEffect_unitMap (s : PState) (t : Int) (v : List String) (et : String) :
    (stepEffect s t v et).unitMap = s.unitMap := by
  unfold stepEffect
  split
  · simp
  · rfl

@[simp]
lemma stepHp_dmg (s : PState) (t : Int) (v : List String) (et : String)
    (row : List String) :
    (stepHp s t v et row).effectDamageEntries = s.effectDamageEntries := by
  unfold stepHp
  repeat first | rfl | split

/-! ## Claim C1 — damage-fact emission condition -/

/-- C1 (counterexample): a Narrative damage-sub-case row on which only
the hp-deduction pattern matches (source unit and effect name non-empty,
`实际生命扣除=500` present, no `施加伤害=` and no legacy `伤害=`)
produces no `DamageEffectEntry`, so a row where only one of the two
non-raw magnitudes matches does not count as a damage fact. -/
theorem damage_hpDeduction_only_not_emitted :
    (narrativeStep initState 0
        ["650", ">t", "效果触发", "Cow", "伤害目标", "Wind", "Slam_Hit",
          "实际生命扣除=500"]).effectDamageEntries = [] ∧
    lastMatch (labelNumMatch "实际生命扣除")
        ["650", ">t", "效果触发", "Cow", "伤害目标", "Wind", "Slam_Hit",
          "实际生命扣除=500"] = some 500 ∧
    (["650", ">t", "效果触发", "Cow", "伤害目标", "Wind", "Slam_Hit",
        "实际生命扣除=500"].getD 4 "" |> trimS) = "伤害目标" ∧
    (["650", ">t", "效果触发", "Cow", "伤害目标", "Wind", "Slam_Hit",
        "实际生命扣除=500"] : List String).length = 8 := by
  refine ⟨?_, ?_, ?_, ?_⟩ <;> rfl

/-- C1 (amended): for a Narrative effect-trigger row in the damage
sub-case (at least 8 cells, `cell[4]` trimmed equal to the damage-target
marker) with non-empty source unit and effect name, a
`DamageEffectEntry` is emitted iff the labeled raw-damage pattern or the
legacy damage fallback matches some cell; matches of the hp-deduction or
shield-deduction patterns populate magnitudes but do not by themselves
make the row count as a damage fact. -/
theorem damage_emitted_iff_raw_or_legacy (s : PState) (i : Nat)
    (row : List String)
    (hlen : row.length > 7)
    (htar : trimS (row.getD 4 "") = "伤害目标")
    (hevt : containsCS (eventTypeOf row) "效果触发" = true)
    (hu : (trimS (row.getD 3 "")).isEmpty = false)
    (heff : (trimS (row.getD 6 "")).isEmpty = false) :
    (narrativeStep s i row).effectDamageEntries =
      if foundDamageOf row then
        s.effectDamageEntries ++
          [⟨narrTime i row, trimS (row.getD 3 ""), trimS (row.getD 6 ""),
            rawDamageOf row,
            (lastMatch (labelNumMatch "实际生命扣除") row).getD 0,
            (lastMatch (labelNumMatch "护盾扣除") row).getD 0⟩]
      else s.effectDamageEntries := by
  unfold narrativeStep
  rw [stepHp_dmg]
  unfold stepEffect
  have h6 : row.length > 6 := by omega
  rw [if_pos (by simp [hevt, h6])]
  rw [stepShieldAdd_dmg, stepHealing_dmg]
  unfold stepDamage
  rw [if_pos (by
    simp only [List.getD, List.get?_eq_getElem?] at htar ⊢
    simp [hlen, htar])]
  dsimp only
  rw [stepSkill_dmg]
  split
  · rename_i hcond
    have hfound : foundDamageOf row = true := by
      simp only [Bool.and_eq_true] at hcond
      exact hcond.2
    rw [if_pos hfound]
  · rename_i hcond
    have hfound : foundDamageOf row = false := by
      simp only [hu, heff, Bool.not_false, Bool.true_and, Bool.and_eq_true,
        not_and] at hcond
      simp only [Bool.not_eq_true] at hcond ⊢
      simpa using hcond
    rw [if_neg (by simp [hfound])]
    rw [stepSkill_dmg]

/-- C1 (witness): the spec's own example row, whose raw-damage pattern
matches, yields exactly the expected damage fact. -/
theorem damage_emitted_iff_raw_or_legacy_witness :
    (narrativeStep initState 0
        ["650", ">t", "效果触发", "Cow", "伤害目标", "Wind", "Slam_Hit",
          "施加伤害=800"]).effectDamageEntries =
      [⟨650, "Cow", "Slam_Hit", 800, 0, 0⟩] := by
  have h := damage_emitted_iff_raw_or_legacy initState 0
    ["650", ">t", "效果触发", "Cow", "伤害目标", "Wind", "Slam_Hit",
      "施加伤害=800"]
    (by decide) (by decide) (by decide) (by decide) (by decide)
  rw [h]
  decide

/-! ## Claim C2 — format-detection vocabulary -/

/-- C2 (counterexample): the header `["time", "actor", "hp"]` satisfies
the spec's detection rule (its unit vocabulary contains `actor`) but not
the source's (`/unit|name|source|player/i`), so the file is processed in
Narrative mode and, with a data row only Standard mode could read,
ingestion fails with the no-data error. -/
theorem actor_header_selects_narrative :
    hasStandardHeaders ["time", "actor", "hp"] = false ∧
    specHasStandardHeaders ["time", "actor", "hp"] = true ∧
    ingest [["time", "actor", "hp"], ["0", "A", "100"]] =
      .error (.noData 2) := by
  refine ⟨rfl, rfl, rfl⟩

/-- C2 (amended): Standard-Header mode is selected exactly when the
first row has a cell matching a time-like keyword (`time`, `date`,
`timestamp`), a cell matching a unit-like keyword from the vocabulary
`{unit, name, source, player}` (without `actor` and `target`, which
appear only in column-index resolution), and a cell matching a
health-like keyword (`hp`, `health`, `life`), each by case-insensitive
substring match; otherwise Narrative mode is selected. -/
theorem hasStandardHeaders_iff (row : List String) :
    hasStandardHeaders row = true ↔
      (∃ c ∈ row, timeLikeDet c = true) ∧ (∃ c ∈ row, unitLikeDet c = true) ∧
        (∃ c ∈ row, healthLikeDet c = true) := by
  simp [hasStandardHeaders, List.any_eq_true, and_assoc]

/-- C2 (witness): a concrete header satisfying all three categories is
detected as a standard header. -/
theorem hasStandardHeaders_iff_witness :
    hasStandardHeaders ["Time", "Unit", "HP"] = true :=
  (hasStandardHeaders_iff ["Time", "Unit", "HP"]).mpr (by decide)

/-! ## Claim C3 — damage sub-metric toggle policy -/

/-- C3 (counterexample): from the initial flag state, enabling the
shield flag and then the hp flag leaves both enabled (enabling one does
not disable the other non-raw flag), and clearing the hp flag when it is
the last one enabled is not a no-op: the state jumps back to raw-only
instead of staying unchanged. -/
theorem toggle_claim_counterexample :
    applyToggles initFlags [.shield true, .hp true] = ⟨false, true, true⟩ ∧
    applyToggles initFlags [.hp true] = ⟨false, true, false⟩ ∧
    applyToggles initFlags [.hp true, .hp false] = ⟨true, false, false⟩ := by
  refine ⟨rfl, rfl, rfl⟩

lemma atLeastOne_applyToggle (s : DmgFlags) (e : ToggleEvent)
    (h : (s.raw || s.hp || s.shield) = true) :
    ((applyToggle s e).raw || (applyToggle s e).hp ||
      (applyToggle s e).shield) = true := by
  rcases s with ⟨r, hp, sh⟩
  revert h
  cases e <;> rename_i c <;> cases c <;> cases r <;> cases hp <;> cases sh <;>
    decide

lemma atLeastOne_applyToggles (evs : List ToggleEvent) (s : DmgFlags)
    (h : (s.raw || s.hp || s.shield) = true) :
    ((applyToggles s evs).raw || (applyToggles s evs).hp ||
      (applyToggles s evs).shield) = true := by
  induction evs generalizing s with
  | nil => exact h
  | cons e t ih => exact ih (applyToggle s e) (atLeastOne_applyToggle s e h)

/-- C3 (amended): after every sequence of toggle events from the initial
state, at least one of the three damage flags is enabled; enabling the
raw flag disables the other two; an attempt to clear the raw flag when
it is the last one enabled is a no-op; but an attempt to clear the hp or
shield flag when it is the last one enabled instead re-enables the raw
flag (the state becomes raw-only), and enabling hp or shield disables
only the raw flag, not each other. -/
theorem toggle_invariant_amended (evs : List ToggleEvent) :
    ((applyToggles initFlags evs).raw || (applyToggles initFlags evs).hp ||
        (applyToggles initFlags evs).shield) = true ∧
    applyToggle (applyToggles initFlags evs) (.raw true) =
      ⟨true, false, false⟩ ∧
    ((applyToggles initFlags evs).hp = false →
      (applyToggles initFlags evs).shield = false →
      applyToggle (applyToggles initFlags evs) (.raw false) =
        applyToggles initFlags evs) ∧
    ((applyToggles initFlags evs).raw = false →
      (applyToggles initFlags evs).shield = false →
      applyToggle (applyToggles initFlags evs) (.hp false) =
        ⟨true, false, false⟩) ∧
    ((applyToggles initFlags evs).raw = false →
      (applyToggles initFlags evs).hp = false →
      applyToggle (applyToggles initFlags evs) (.shield false) =
        ⟨true, false, false⟩) ∧
    (applyToggle (applyToggles initFlags evs) (.hp true)).raw = false ∧
    (applyToggle (applyToggles initFlags evs) (.hp true)).shield =
      (applyToggles initFlags evs).shield ∧
    (applyToggle (applyToggles initFlags evs) (.shield true)).raw = false ∧
    (applyToggle (applyToggles initFlags evs) (.shield true)).hp =
      (applyToggles initFlags evs).hp := by
  have hinv := atLeastOne_applyToggles evs initFlags (by decide)
  rcases hs : applyToggles initFlags evs with ⟨r, hp, sh⟩
  rw [hs] at hinv
  revert hinv
  cases r <;> cases hp <;> cases sh <;> decide

/-- C3 (witness): the amended toggle policy applied to the concrete
sequence that enables only the hp flag. -/
theorem toggle_invariant_amended_witness :
    applyToggle (applyToggles initFlags [.hp true]) (.hp false) =
      ⟨true, false, false⟩ :=
  (toggle_invariant_amended [.hp true]).2.2.2.1 (by decide) (by decide)

/-! ## Detection versus column resolution -/

lemma timeDet_imp_res (c : String) (h : timeLikeDet c = true) :
    timeLikeRes c = true := by
  simp only [timeLikeDet, Bool.or_eq_true] at h
  simp only [timeLikeRes, Bool.or_eq_true]
  tauto

lemma unitDet_imp_res (c : String) (h : unitLikeDet c = true) :
    unitLikeRes c = true := by
  simp only [unitLikeDet, Bool.or_eq_true] at h
  simp only [unitLikeRes, Bool.or_eq_true]
  tauto

lemma healthDet_imp_res (c : String) (h : healthLikeDet c = true) :
    healthLikeRes c = true := by
  simp only [healthLikeDet, Bool.or_eq_true] at h
  simp only [healthLikeRes, Bool.or_eq_true]
  tauto

lemma any_mono {p q : String → Bool} (himp : ∀ c, p c = true → q c = true)
    (l : List String) (h : l.any p = true) : l.any q = true := by
  rw [List.any_eq_true] at h ⊢
  obtain ⟨c, hc, hpc⟩ := h
  exact ⟨c, hc, himp c hpc⟩

lemma detect_resolves (row : List String)
    (h : hasStandardHeaders row = true) :
    (findTimeIdx row).isSome = true ∧ (findUnitIdx row).isSome = true ∧
      (findHpIdx row).isSome = true := by
  simp only [hasStandardHeaders, Bool.and_eq_true] at h
  obtain ⟨⟨h1, h2⟩, h3⟩ := h
  refine ⟨?_, ?_, ?_⟩
  · rw [findTimeIdx, List.findIdx?_isSome]
    exact any_mono timeDet_imp_res row h1
  · rw [findUnitIdx, List.findIdx?_isSome]
    exact any_mono unitDet_imp_res row h2
  · rw [findHpIdx, List.findIdx?_isSome]
    exact any_mono healthDet_imp_res row h3

lemma finish_ne_schemaError (s : PState) (n : Nat) :
    finish s n ≠ .error .schemaError := by
  unfold finish
  split
  · intro h
    injection h with h2
    exact IngestError.noConfusion h2
  · intro h
    exact Except.noConfusion h

lemma ingest_eq_finish (rows : List (List String)) (hne : rows ≠ []) :
    ingest rows = finish (runState rows) rows.length := by
  match rows with
  | [] => exact absurd rfl hne
  | first :: rest =>
    unfold ingest runState
    cases hstd : hasStandardHeaders first with
    | true =>
      obtain ⟨h1, h2, h3⟩ := detect_resolves first hstd
      obtain ⟨ti, hti⟩ := Option.isSome_iff_exists.mp h1
      obtain ⟨ui, hui⟩ := Option.isSome_iff_exists.mp h2
      obtain ⟨hi, hhi⟩ := Option.isSome_iff_exists.mp h3
      simp only [hstd, if_true, hti, hui, hhi]
    | false => simp only [hstd, if_false, Bool.false_eq_true]

/-! ## Claim C9 — the schema-error branch is unreachable -/

/-- C9: whenever the detector selects Standard-Header mode, all three
column-index lookups succeed (each resolution vocabulary is a superset
of the corresponding detection vocabulary), so ingestion can never fail
with the missing-column schema error. -/
theorem schemaError_unreachable :
    (∀ row : List String, hasStandardHeaders row = true →
      (findTimeIdx row).isSome = true ∧ (findUnitIdx row).isSome = true ∧
        (findHpIdx row).isSome = true) ∧
    ∀ rows : List (List String), ingest rows ≠ .error .schemaError := by
  refine ⟨fun row h => detect_resolves row h, fun rows => ?_⟩
  match rows with
  | [] =>
    intro h
    injection h with h2
    exact IngestError.noConfusion h2
  | first :: rest =>
    rw [ingest_eq_finish (first :: rest) (by simp)]
    exact finish_ne_schemaError _ _

/-- C9 (witness): a concrete standard header resolves all three
columns, and a concrete file does not fail with a schema error. -/
theorem schemaError_unreachable_witness :
    (findTimeIdx ["time", "unit", "hp"]).isSome = true ∧
    ingest [["x"]] ≠ .error .schemaError :=
  ⟨(schemaError_unreachable.1 ["time", "unit", "hp"] (by decide)).1,
    schemaError_unreachable.2 [["x"]]⟩

/-! ## Claim C6 — the no-data error -/

/-- C6 (counterexample): on the empty row sequence every fact collection
is (vacuously) empty, yet ingestion fails with the distinct empty-file
error, not with the no-data error. -/
theorem ingest_nil_not_noData :
    ingest [] = .error .emptyFile ∧
    (Except.error .emptyFile : Except IngestError ProcessedData) ≠
      .error (.noData 0) := by
  refine ⟨rfl, fun h => ?_⟩
  injection h with h2
  exact IngestError.noConfusion h2

/-- C6 (amended): for every non-empty input row sequence, if after
processing all rows all five fact collections are empty, ingestion fails
with the no-data error carrying the row count (and an encoding-retry
hint in its message); if any collection is non-empty no no-data error is
produced; and a successful result never has all five collections empty.
(The empty row sequence instead fails with a separate empty-file
error.) -/
theorem noData_iff_no_facts (rows : List (List String)) (hne : rows ≠ []) :
    (allEmpty (runState rows) = true →
      ingest rows = .error (.noData rows.length)) ∧
    (allEmpty (runState rows) = false →
      ∀ n, ingest rows ≠ .error (.noData n)) ∧
    (∀ d, ingest rows = .ok d → allEmptyData d = false) := by
  have heq := ingest_eq_finish rows hne
  refine ⟨?_, ?_, ?_⟩
  · intro h
    rw [heq]
    unfold finish
    rw [if_pos h]
  · intro h n hcontra
    rw [heq] at hcontra
    unfold finish at hcontra
    rw [if_neg (by simp [h])] at hcontra
    exact Except.noConfusion hcontra
  · intro d hd
    rw [heq] at hd
    unfold finish at hd
    by_cases h : allEmpty (runState rows) = true
    · rw [if_pos h] at hd
      exact Except.noConfusion hd
    · rw [if_neg h] at hd
      injection hd with hd2
      rw [← hd2]
      simpa [allEmptyData, allEmpty] using Bool.eq_false_iff.mpr h

/-- C6 (witness): a concrete single junk row yields no facts and fails
with the no-data error carrying row count 1. -/
theorem noData_iff_no_facts_witness :
    ingest [["junk"]] = .error (.noData 1) :=
  (noData_iff_no_facts [["junk"]] (by simp)).1 (by decide)

/-! ## Claim C7 — the standard-mode example file -/

/-- C7: standard-mode ingestion of the header `["time","unit","hp"]`
with the three example rows accepts exactly the two rows with numeric
time for unit `A`, silently skips the row with non-numeric time, and
reports the actor set `{"A"}`. -/
theorem standard_ingest_example :
    ingest [["time", "unit", "hp"], ["0", "A", "100"], ["1", "A", "90"],
        ["x", "B", "50"]] =
      .ok ⟨[⟨0, "A", 100, ["0", "A", "100"]⟩, ⟨1, "A", 90, ["1", "A", "90"]⟩],
        [], [], [], [], ["A"], (some 0, some 1)⟩ := by
  rfl

/-! ## Claim C10 — empty numeric cells parse as zero -/

/-- C10: in Standard mode a data row whose time cell or health cell is
the empty string is not skipped: the empty cell parses as `0`
(`Number("") = 0`), so the row is accepted with time `0` or hp `0`
respectively, provided the other numeric cell parses and the unit cell
is non-empty after trimming. -/
theorem empty_cell_parses_as_zero (ti ui hi : Nat) (row : List String)
    (hu : (trimS (cellStr (row.get? ui))).isEmpty = false) :
    (∀ v : Int, row.get? ti = some "" → jsNumberCell (row.get? hi) = some v →
      standardRow ti ui hi row =
        some ⟨0, trimS (cellStr (row.get? ui)), v, row⟩) ∧
    (∀ v : Int, jsNumberCell (row.get? ti) = some v → row.get? hi = some "" →
      standardRow ti ui hi row =
        some ⟨v, trimS (cellStr (row.get? ui)), 0, row⟩) := by
  rw [List.get?_eq_getElem?] at hu
  constructor
  · intro v hte hh
    unfold standardRow
    rw [hte, hh]
    dsimp only [jsNumberCell]
    rw [show jsNumber "" = some 0 from rfl]
    simp [hu]
  · intro v hte hh
    unfold standardRow
    rw [hte, hh]
    dsimp only [jsNumberCell]
    rw [show jsNumber "" = some 0 from rfl]
    simp [hu]

/-! ## Claim C4 — identifier binding and name resolution -/

lemma lookupA_insertA_self {α : Type} (m : List (String × α)) (k : String)
    (v : α) : lookupA (insertA m k v) k = some v := by
  induction m with
  | nil => simp [insertA, lookupA]
  | cons p t ih =>
    obtain ⟨k', v'⟩ := p
    unfold insertA
    by_cases hk : k' == k
    · rw [if_pos hk]
      simp [lookupA]
    · rw [if_neg hk]
      unfold lookupA
      rw [if_neg hk]
      exact ih

@[simp]
lemma stepHp_unitMap (s : PState) (t : Int) (v : List String) (et : String)
    (row : List String) :
    (stepHp s t v et row).unitMap = map1Of s.unitMap et v := by
  unfold stepHp
  repeat first | rfl | split

/-- C4: (a) whenever a Narrative health-type row yields both a non-empty
candidate name and an identifier, the identifier is bound to that name
in the identity table, overwriting any prior binding; (b) a later row of
the health-change kind that carries a bound identifier but an empty name
field resolves to the bound name and emits a HealthEntry for it. -/
theorem uid_binding_and_resolution :
    (∀ (s : PState) (i : Nat) (row : List String) (u n : String),
      (containsCS (eventTypeOf row) "血量变化" = true ∨
        containsCS (eventTypeOf row) "单位创建" = true) →
      candidateName row = n → n.isEmpty = false → rowUid row = some u →
      lookupA (narrativeStep s i row).unitMap u = some n) ∧
    (∀ (s : PState) (i : Nat) (row : List String) (u n : String) (h : Nat),
      containsCS (eventTypeOf row) "血量变化" = true →
      candidateName row = "" → rowUid row = some u →
      lookupA s.unitMap u = some n → n.isEmpty = false →
      rowHp (eventTypeOf row) row = some h →
      (narrativeStep s i row).entries =
        s.entries ++ [⟨narrTime i row, n, (h : Int), row⟩]) := by
  constructor
  · intro s i row u n hev hcand hne huid
    unfold narrativeStep
    rw [stepHp_unitMap, stepEffect_unitMap, stepSkill_unitMap]
    have hor : (containsCS (eventTypeOf row) "血量变化" ||
        containsCS (eventTypeOf row) "单位创建") = true := by
      rcases hev with h | h <;> simp [h]
    have h0 : unit0Of (eventTypeOf row) row = n := by
      unfold unit0Of
      rw [if_pos hor, hcand]
    unfold map1Of
    rw [huid, h0]
    dsimp only
    rw [hne]
    simp only [Bool.not_false, if_true]
    exact lookupA_insertA_self s.unitMap u n
  · intro s i row u n h hev hcand huid hbound hne hhp
    have h0 : unit0Of (eventTypeOf row) row = "" := by
      unfold unit0Of
      split <;> simp [hcand]
    have hm : ∀ m : List (String × String),
        map1Of m (eventTypeOf row) row = m := by
      intro m
      unfold map1Of
      rw [huid, h0]
      dsimp only
      rw [if_neg (by decide)]
    have h1 : unit1Of s.unitMap (eventTypeOf row) row = n := by
      unfold unit1Of
      rw [h0]
      rw [if_pos (by decide)]
      rw [huid]
      dsimp only
      rw [hm s.unitMap, hbound]
      rfl
    have hu2 : unit2Of (stepEffect (stepSkill s (narrTime i row) row
          (eventTypeOf row)) (narrTime i row) row (eventTypeOf row))
        (eventTypeOf row) row = n := by
      unfold unit2Of
      rw [stepEffect_unitMap, stepSkill_unitMap, h1]
      rw [if_neg (by simp [hne])]
    unfold narrativeStep stepHp
    dsimp only
    rw [hhp]
    dsimp only
    rw [hu2]
    rw [if_pos (by simp [hne])]
    dsimp only
    rw [stepEffect_entries, stepSkill_entries]

/-- C4 (witness): a creation event binds identifier `2` to `Wind`, and a
following health-change event that carries `uid=2` with an empty name
field emits a HealthEntry with unit `Wind` and the post-change health
value 80. -/
theorem uid_binding_and_resolution_witness :
    lookupA (narrativeStep initState 0
        ["0", "sys", "单位创建", "Wind", "uid=2", "HP=100"]).unitMap "2" =
      some "Wind" ∧
    (narrativeStep (narrativeStep initState 0
          ["0", "sys", "单位创建", "Wind", "uid=2", "HP=100"]) 1
        ["5", "sys", "血量变化", "", "变动情况 100=>80", "uid=2"]).entries =
      (narrativeStep initState 0
          ["0", "sys", "单位创建", "Wind", "uid=2", "HP=100"]).entries ++
        [⟨5, "Wind", 80, ["5", "sys", "血量变化", "", "变动情况 100=>80",
          "uid=2"]⟩] := by
  constructor
  · exact uid_binding_and_resolution.1 initState 0
      ["0", "sys", "单位创建", "Wind", "uid=2", "HP=100"] "2" "Wind"
      (Or.inr (by decide)) (by decide) (by decide) (by decide)
  · exact uid_binding_and_resolution.2
      (narrativeStep initState 0
        ["0", "sys", "单位创建", "Wind", "uid=2", "HP=100"]) 1
      ["5", "sys", "血量变化", "", "变动情况 100=>80", "uid=2"] "2" "Wind" 80
      (by decide) (by decide) (by decide) (by decide) (by decide) (by decide)

/-! ## Claim C8 — every fact time lies within the reported time range -/

lemma boundsOk_widen_self (mn mx : Option Int) (t : Int) :
    boundsOk (widenMin mn t) (widenMax mx t) t := by
  cases mn <;> cases mx <;> simp [widenMin, widenMax, boundsOk]

lemma boundsOk_widen_mono (mn mx : Option Int) (t t' : Int)
    (h : boundsOk mn mx t') :
    boundsOk (widenMin mn t) (widenMax mx t) t' := by
  obtain ⟨a, b, ha, hb, h1, h2⟩ := h
  subst ha
  subst hb
  simp [widenMin, widenMax, boundsOk]
  omega

lemma invT_init : InvT initState := by
  refine ⟨?_, ?_, ?_, ?_, ?_⟩ <;> intro e he <;> simp [initState] at he

lemma invT_stepSkill (s : PState) (t : Int) (v : List String) (et : String)
    (h : InvT s) : InvT (stepSkill s t v et) := by
  obtain ⟨h1, h2, h3, h4, h5⟩ := h
  unfold stepSkill
  split
  · dsimp only
    split
    · refine ⟨?_, ?_, ?_, ?_, ?_⟩ <;> dsimp only <;> intro e he
      · exact boundsOk_widen_mono _ _ _ _ (h1 e he)
      · rcases List.mem_append.mp he with he | he
        · exact boundsOk_widen_mono _ _ _ _ (h2 e he)
        · rw [List.mem_singleton.mp he]
          exact boundsOk_widen_self _ _ _
      · exact boundsOk_widen_mono _ _ _ _ (h3 e he)
      · exact boundsOk_widen_mono _ _ _ _ (h4 e he)
      · exact boundsOk_widen_mono _ _ _ _ (h5 e he)
    · exact ⟨h1, h2, h3, h4, h5⟩
  · exact ⟨h1, h2, h3, h4, h5⟩

lemma invT_stepDamage (s : PState) (t : Int) (v : List String)
    (h : InvT s) : InvT (stepDamage s t v) := by
  obtain ⟨h1, h2, h3, h4, h5⟩ := h
  unfold stepDamage
  split
  · dsimp only
    split
    · refine ⟨?_, ?_, ?_, ?_, ?_⟩ <;> dsimp only <;> intro e he
      · exact boundsOk_widen_mono _ _ _ _ (h1 e he)
      · exact boundsOk_widen_mono _ _ _ _ (h2 e he)
      · rcases List.mem_append.mp he with he | he
        · exact boundsOk_widen_mono _ _ _ _ (h3 e he)
        · rw [List.mem_singleton.mp he]
          exact boundsOk_widen_self _ _ _
      · exact boundsOk_widen_mono _ _ _ _ (h4 e he)
      · exact boundsOk_widen_mono _ _ _ _ (h5 e he)
    · exact ⟨h1, h2, h3, h4, h5⟩
  · exact ⟨h1, h2, h3, h4, h5⟩

lemma invT_stepHealing (s : PState) (t : Int) (v : List String)
    (h : InvT s) : InvT (stepHealing s t v) := by
  obtain ⟨h1, h2, h3, h4, h5⟩ := h
  unfold stepHealing
  split
  · dsimp only
    split
    · refine ⟨?_, ?_, ?_, ?_, ?_⟩ <;> dsimp only <;> intro e he
      · exact boundsOk_widen_mono _ _ _ _ (h1 e he)
      · exact boundsOk_widen_mono _ _ _ _ (h2 e he)
      · exact boundsOk_widen_mono _ _ _ _ (h3 e he)
      · rcases List.mem_append.mp he with he | he
        · exact boundsOk_widen_mono _ _ _ _ (h4 e he)
        · rw [List.mem_singleton.mp he]
          exact boundsOk_widen_self _ _ _
      · exact boundsOk_widen_mono _ _ _ _ (h5 e he)
    · exact ⟨h1, h2, h3, h4, h5⟩
  · exact ⟨h1, h2, h3, h4, h5⟩

lemma invT_stepShieldAdd (s : PState) (t : Int) (v : List String)
    (h : InvT s) : InvT (stepShieldAdd s t v) := by
  obtain ⟨h1, h2, h3, h4, h5⟩ := h
  unfold stepShieldAdd
  split
  · dsimp only
    split
    · refine ⟨?_, ?_, ?_, ?_, ?_⟩ <;> dsimp only <;> intro e he
      · exact boundsOk_widen_mono _ _ _ _ (h1 e he)
      · exact boundsOk_widen_mono _ _ _ _ (h2 e he)
      · exact boundsOk_widen_mono _ _ _ _ (h3 e he)
      · exact boundsOk_widen_mono _ _ _ _ (h4 e he)
      · rcases List.mem_append.mp he with he | he
        · exact boundsOk_widen_mono _ _ _ _ (h5 e he)
        · rw [List.mem_singleton.mp he]
          exact boundsOk_widen_self _ _ _
    · exact ⟨h1, h2, h3, h4, h5⟩
  · exact ⟨h1, h2, h3, h4, h5⟩

lemma invT_stepHp (s : PState) (t : Int) (v : List String) (et : String)
    (row : List String) (h : InvT s) : InvT (stepHp s t v et row) := by
  obtain ⟨h1, h2, h3, h4, h5⟩ := h
  unfold stepHp
  split
  · split
    · refine ⟨?_, ?_, ?_, ?_, ?_⟩ <;> dsimp only <;> intro e he
      · rcases List.mem_append.mp he with he | he
        · exact boundsOk_widen_mono _ _ _ _ (h1 e he)
        · rw [List.mem_singleton.mp he]
          exact boundsOk_widen_self _ _ _
      · exact boundsOk_widen_mono _ _ _ _ (h2 e he)
      · exact boundsOk_widen_mono _ _ _ _ (h3 e he)
      · exact boundsOk_widen_mono _ _ _ _ (h4 e he)
      · exact boundsOk_widen_mono _ _ _ _ (h5 e he)
    · exact ⟨h1, h2, h3, h4, h5⟩
  · exact ⟨h1, h2, h3, h4, h5⟩

lemma invT_stepEffect (s : PState) (t : Int) (v : List String) (et : String)
    (h : InvT s) : InvT (stepEffect s t v et) := by
  unfold stepEffect
  split
  · exact invT_stepShieldAdd _ _ _ (invT_stepHealing _ _ _
      (invT_stepDamage _ _ _ h))
  · exact h

lemma invT_narrativeStep (s : PState) (i : Nat) (row : List String)
    (h : InvT s) : InvT (narrativeStep s i row) :=
  invT_stepHp _ _ _ _ _ (invT_stepEffect _ _ _ _ (invT_stepSkill _ _ _ _ h))

lemma invT_stdStep (ti ui hi : Nat) (s : PState) (row : List String)
    (h : InvT s) : InvT (stdStep ti ui hi s row) := by
  obtain ⟨h1, h2, h3, h4, h5⟩ := h
  unfold stdStep
  split
  · refine ⟨?_, ?_, ?_, ?_, ?_⟩ <;> dsimp only <;> intro e he
    · rcases List.mem_append.mp he with he | he
      · exact boundsOk_widen_mono _ _ _ _ (h1 e he)
      · rw [List.mem_singleton.mp he]
        exact boundsOk_widen_self _ _ _
    · exact boundsOk_widen_mono _ _ _ _ (h2 e he)
    · exact boundsOk_widen_mono _ _ _ _ (h3 e he)
    · exact boundsOk_widen_mono _ _ _ _ (h4 e he)
    · exact boundsOk_widen_mono _ _ _ _ (h5 e he)
  · exact ⟨h1, h2, h3, h4, h5⟩

lemma invT_stdFold (ti ui hi : Nat) (rows : List (List String)) :
    ∀ s : PState, InvT s → InvT (rows.foldl (stdStep ti ui hi) s) := by
  induction rows with
  | nil => exact fun s h => h
  | cons r t ih =>
    intro s h
    exact ih _ (invT_stdStep ti ui hi s r h)

lemma invT_narrativeFoldAux (rows : List (List String)) :
    ∀ (i : Nat) (s : PState), InvT s → InvT (narrativeFoldAux i rows s) := by
  induction rows with
  | nil => exact fun i s h => h
  | cons r t ih =>
    intro i s h
    exact ih _ _ (invT_narrativeStep s i r h)

lemma invT_runState (rows : List (List String)) : InvT (runState rows) := by
  cases rows with
  | nil => exact invT_init
  | cons first rest =>
    simp only [runState]
    split
    · split
      · exact invT_stdFold _ _ _ rest initState invT_init
      · exact invT_init
    · exact invT_narrativeFoldAux (first :: rest) 0 initState invT_init

lemma boundsOk_eval {mn mx : Option Int} {a b t : Int}
    (hmn : mn = some a) (hmx : mx = some b) (h : boundsOk mn mx t) :
    a ≤ t ∧ t ≤ b := by
  obtain ⟨a', b', ha', hb', hl, hr⟩ := h
  rw [hmn] at ha'
  rw [hmx] at hb'
  injection ha' with e1
  injection hb' with e2
  omega

lemma bounds_set_of_not_allEmpty (s : PState) (hinv : InvT s)
    (h : allEmpty s = false) :
    ∃ mn mx, s.tmin = some mn ∧ s.tmax = some mx := by
  obtain ⟨h1, h2, h3, h4, h5⟩ := hinv
  unfold allEmpty at h
  simp only [Bool.and_eq_false_iff] at h
  rcases h with (((h | h) | h) | h) | h <;>
    rw [List.isEmpty_eq_false] at h <;>
    obtain ⟨e, he⟩ := List.exists_mem_of_ne_nil _ h
  · obtain ⟨a, b, ha, hb, _, _⟩ := h1 e he
    exact ⟨a, b, ha, hb⟩
  · obtain ⟨a, b, ha, hb, _, _⟩ := h2 e he
    exact ⟨a, b, ha, hb⟩
  · obtain ⟨a, b, ha, hb, _, _⟩ := h3 e he
    exact ⟨a, b, ha, hb⟩
  · obtain ⟨a, b, ha, hb, _, _⟩ := h4 e he
    exact ⟨a, b, ha, hb⟩
  · obtain ⟨a, b, ha, hb, _, _⟩ := h5 e he
    exact ⟨a, b, ha, hb⟩

/-- C8: for every successful ingestion, the reported time range is a
concrete interval `[mn, mx]` and every time value of every entry in all
five fact collections lies within it. -/
theorem times_within_timeRange (rows : List (List String))
    (d : ProcessedData) (hok : ingest rows = .ok d) :
    ∃ mn mx, d.timeRange = (some mn, some mx) ∧
      (∀ e ∈ d.entries, mn ≤ e.time ∧ e.time ≤ mx) ∧
      (∀ e ∈ d.skillEntries, mn ≤ e.time ∧ e.time ≤ mx) ∧
      (∀ e ∈ d.effectDamageEntries, mn ≤ e.time ∧ e.time ≤ mx) ∧
      (∀ e ∈ d.effectHealingEntries, mn ≤ e.time ∧ e.time ≤ mx) ∧
      (∀ e ∈ d.effectShieldEntries, mn ≤ e.time ∧ e.time ≤ mx) := by
  have hne : rows ≠ [] := by
    intro hnil
    rw [hnil] at hok
    exact Except.noConfusion hok
  rw [ingest_eq_finish rows hne] at hok
  have hinv := invT_runState rows
  unfold finish at hok
  by_cases hempty : allEmpty (runState rows) = true
  · rw [if_pos hempty] at hok
    exact Except.noConfusion hok
  · rw [if_neg hempty] at hok
    injection hok with hok2
    obtain ⟨mn, mx, hmn, hmx⟩ := bounds_set_of_not_allEmpty (runState rows)
      hinv (Bool.eq_false_iff.mpr hempty)
    obtain ⟨h1, h2, h3, h4, h5⟩ := hinv
    refine ⟨mn, mx, ?_, ?_, ?_, ?_, ?_, ?_⟩ <;> rw [← hok2]
    · dsimp only
      rw [hmn, hmx]
    · exact fun e he => boundsOk_eval hmn hmx (h1 e he)
    · exact fun e he => boundsOk_eval hmn hmx (h2 e he)
    · exact fun e he => boundsOk_eval hmn hmx (h3 e he)
    · exact fun e he => boundsOk_eval hmn hmx (h4 e he)
    · exact fun e he => boundsOk_eval hmn hmx (h5 e he)

/-- C8 (witness): the time-range invariant evaluated on a concrete
two-row standard file with times 2 and 7. -/
theorem times_within_timeRange_witness :
    ∃ mn mx,
      (⟨[⟨2, "A", 5, ["2", "A", "5"]⟩, ⟨7, "B", 3, ["7", "B", "3"]⟩],
          [], [], [], [], ["A", "B"], (some 2, some 7)⟩ :
        ProcessedData).timeRange = (some mn, some mx) ∧
      (∀ e ∈ (⟨[⟨2, "A", 5, ["2", "A", "5"]⟩, ⟨7, "B", 3, ["7", "B", "3"]⟩],
          [], [], [], [], ["A", "B"], (some 2, some 7)⟩ :
        ProcessedData).entries, mn ≤ e.time ∧ e.time ≤ mx) ∧
      (∀ e ∈ ([] : List SkillEntry), mn ≤ e.time ∧ e.time ≤ mx) ∧
      (∀ e ∈ ([] : List EffectDamageEntry), mn ≤ e.time ∧ e.time ≤ mx) ∧
      (∀ e ∈ ([] : List EffectHealingEntry), mn ≤ e.time ∧ e.time ≤ mx) ∧
      (∀ e ∈ ([] : List EffectShieldEntry), mn ≤ e.time ∧ e.time ≤ mx) :=
  times_within_timeRange
    [["time", "unit", "hp"], ["2", "A", "5"], ["7", "B", "3"]]
    ⟨[⟨2, "A", 5, ["2", "A", "5"]⟩, ⟨7, "B", 3, ["7", "B", "3"]⟩],
      [], [], [], [], ["A", "B"], (some 2, some 7)⟩ rfl

/-! ## Claim C5 — forward-fill health aggregation -/

lemma mstep_some (a : Option LogEntry) (e : LogEntry) :
    mstep a (some e) = ffStep a e := rfl

lemma mstep_none (a : Option LogEntry) : mstep a none = a := rfl

lemma ffStep_some (x e : LogEntry) :
    ffStep (some x) e = if x.time ≤ e.time then some e else some x := rfl

lemma mstep_none_left (Z : Option LogEntry) : mstep none Z = Z := by
  cases Z <;> rfl

lemma mstep_nr (a : Option LogEntry) : mstep a none = a := rfl

lemma mstep_ss (a b : LogEntry) :
    mstep (some a) (some b) =
      if a.time ≤ b.time then some b else some a := rfl

lemma mstep_assoc (a b c : Option LogEntry) :
    mstep (mstep a b) c = mstep a (mstep b c) := by
  rcases a with _ | x <;> rcases b with _ | y <;> rcases c with _ | z <;>
    first
      | (simp only [mstep_none_left, mstep_nr])
      | skip
  rw [mstep_ss, mstep_ss]
  by_cases hxy : x.time ≤ y.time
  · rw [if_pos hxy, mstep_ss]
    by_cases hyz : y.time ≤ z.time
    · rw [if_pos hyz, mstep_ss, if_pos (show x.time ≤ z.time by omega)]
    · rw [if_neg hyz, mstep_ss, if_pos hxy]
  · rw [if_neg hxy]
    by_cases hyz : y.time ≤ z.time
    · rw [if_pos hyz]
    · rw [if_neg hyz, mstep_ss, mstep_ss,
        if_neg (show ¬x.time ≤ z.time by omega), if_neg hxy]

lemma ffold_acc (l : List LogEntry) :
    ∀ a : Option LogEntry, l.foldl ffStep a = mstep a (ffEntry l) := by
  induction l with
  | nil => intro a; rfl
  | cons e t ih =>
    intro a
    have h1 : (e :: t).foldl ffStep a = t.foldl ffStep (ffStep a e) := rfl
    have h2 : ffEntry (e :: t) = t.foldl ffStep (some e) := rfl
    rw [h1, h2, ih (ffStep a e), ih (some e)]
    rw [show ffStep a e = mstep a (some e) from rfl]
    exact mstep_assoc a (some e) (ffEntry t)

lemma ffold_mem (l : List LogEntry) :
    ∀ (a : Option LogEntry) (e : LogEntry), l.foldl ffStep a = some e →
      e ∈ l ∨ a = some e := by
  induction l with
  | nil => exact fun a e h => Or.inr h
  | cons x t ih =>
    intro a e h
    rcases ih (ffStep a x) e h with hm | hm
    · exact Or.inl (List.mem_cons_of_mem x hm)
    · rcases a with _ | y
      · injection hm with hm2
        exact Or.inl (hm2 ▸ List.mem_cons_self x t)
      · rw [ffStep_some] at hm
        split at hm
        · injection hm with hm2
          exact Or.inl (hm2 ▸ List.mem_cons_self x t)
        · exact Or.inr hm

lemma ffEntry_mem {l : List LogEntry} {e : LogEntry}
    (h : ffEntry l = some e) : e ∈ l := by
  rcases ffold_mem l none e h with hm | hm
  · exact hm
  · exact Option.noConfusion hm

lemma ffold_isSome (l : List LogEntry) :
    ∀ a : Option LogEntry, a.isSome = true →
      (l.foldl ffStep a).isSome = true := by
  induction l with
  | nil => exact fun a h => h
  | cons x t ih =>
    intro a _
    apply ih (ffStep a x)
    rcases a with _ | y
    · rfl
    · rw [ffStep_some]
      split <;> rfl

lemma ffEntry_isSome_of_mem {l : List LogEntry} {e : LogEntry} (h : e ∈ l) :
    (ffEntry l).isSome = true := by
  cases l with
  | nil => cases h
  | cons x t => exact ffold_isSome t (some x) rfl

lemma mstep_swap (e : LogEntry) (X Y : Option LogEntry)
    (hX : ∀ x, X = some x → x.time < e.time) :
    mstep (some e) (mstep X Y) = mstep X (mstep (some e) Y) := by
  rcases hx : X with _ | x
  · rw [mstep_none_left, mstep_none_left]
  · have hlt := hX x hx
    rcases Y with _ | y
    · rw [mstep_nr, mstep_nr, mstep_ss,
        if_neg (show ¬e.time ≤ x.time by omega), mstep_ss,
        if_pos (le_of_lt hlt)]
    · rw [mstep_ss]
      by_cases hxy : x.time ≤ y.time
      · rw [if_pos hxy, mstep_ss]
        by_cases hey : e.time ≤ y.time
        · rw [if_pos hey, mstep_ss, if_pos hxy]
        · rw [if_neg hey, mstep_ss, if_pos (le_of_lt hlt)]
      · rw [if_neg hxy, mstep_ss, if_neg (show ¬e.time ≤ x.time by omega)]
        by_cases hey : e.time ≤ y.time
        · exact absurd (show x.time ≤ y.time by omega) hxy
        · rw [mstep_ss, if_neg hey, mstep_ss, if_pos (le_of_lt hlt)]

lemma ffEntry_filter_union (P Q : LogEntry → Bool) :
    ∀ l : List LogEntry,
      (∀ p ∈ l, ∀ q ∈ l, P p = true → Q q = true → p.time < q.time) →
      ffEntry (l.filter fun e => P e || Q e) =
        mstep (ffEntry (l.filter P)) (ffEntry (l.filter Q)) := by
  intro l
  induction l with
  | nil => intro _; rfl
  | cons x t ih =>
    intro hdom
    have hdt : ∀ p ∈ t, ∀ q ∈ t, P p = true → Q q = true → p.time < q.time :=
      fun p hp q hq => hdom p (List.mem_cons_of_mem x hp) q
        (List.mem_cons_of_mem x hq)
    have hxmem : x ∈ x :: t := List.mem_cons_self x t
    cases hP : P x <;> cases hQ : Q x
    · rw [List.filter_cons_of_neg (by simp [hP, hQ]),
        List.filter_cons_of_neg (by simp [hP]),
        List.filter_cons_of_neg (by simp [hQ])]
      exact ih hdt
    · rw [List.filter_cons_of_pos (by simp [hQ]),
        List.filter_cons_of_neg (by simp [hP]),
        List.filter_cons_of_pos (by simp [hQ])]
      have h1 : ffEntry (x :: List.filter (fun e => P e || Q e) t) =
          mstep (some x) (ffEntry (List.filter (fun e => P e || Q e) t)) := by
        rw [show ffEntry (x :: List.filter (fun e => P e || Q e) t) =
          (List.filter (fun e => P e || Q e) t).foldl ffStep (some x) from rfl]
        exact ffold_acc _ _
      have h2 : ffEntry (x :: List.filter Q t) =
          mstep (some x) (ffEntry (List.filter Q t)) := by
        rw [show ffEntry (x :: List.filter Q t) =
          (List.filter Q t).foldl ffStep (some x) from rfl]
        exact ffold_acc _ _
      rw [h1, ih hdt, h2]
      apply mstep_swap
      intro p hp
      have hpf := ffEntry_mem hp
      have hpm := List.mem_of_mem_filter hpf
      have hpP := List.of_mem_filter hpf
      exact hdom p (List.mem_cons_of_mem x hpm) x hxmem hpP hQ
    · rw [List.filter_cons_of_pos (by simp [hP]),
        List.filter_cons_of_pos (by simp [hP]),
        List.filter_cons_of_neg (by simp [hQ])]
      have h1 : ffEntry (x :: List.filter (fun e => P e || Q e) t) =
          mstep (some x) (ffEntry (List.filter (fun e => P e || Q e) t)) := by
        rw [show ffEntry (x :: List.filter (fun e => P e || Q e) t) =
          (List.filter (fun e => P e || Q e) t).foldl ffStep (some x) from rfl]
        exact ffold_acc _ _
      have h2 : ffEntry (x :: List.filter P t) =
          mstep (some x) (ffEntry (List.filter P t)) := by
        rw [show ffEntry (x :: List.filter P t) =
          (List.filter P t).foldl ffStep (some x) from rfl]
        exact ffold_acc _ _
      rw [h1, ih hdt, h2, mstep_assoc]
    · exact absurd (hdom x hxmem x hxmem hP hQ) (by omega)

lemma lastOpt_acc {α : Type} (t : List α) :
    ∀ a : Option α, t.foldl (fun _ e => some e) a =
      match lastOpt t with
      | some y => some y
      | none => a := by
  induction t with
  | nil => intro a; rfl
  | cons x s ih =>
    intro a
    have h1 : (x :: s).foldl (fun _ e => some e) a =
        s.foldl (fun _ e => some e) (some x) := rfl
    have h2 : lastOpt (x :: s) = s.foldl (fun _ e => some e) (some x) := rfl
    rw [h1, h2, ih (some x)]
    cases hl : lastOpt s <;> simp [ih (some x), hl]

lemma ffold_const_time (c : Int) :
    ∀ l : List LogEntry, (∀ e ∈ l, e.time = c) →
      ∀ a : Option LogEntry, (∀ x, a = some x → x.time ≤ c) →
      l.foldl ffStep a =
        match lastOpt l with
        | some y => some y
        | none => a := by
  intro l
  induction l with
  | nil => intro _ a _; rfl
  | cons e t ih =>
    intro hc a ha
    have he : e.time = c := hc e (List.mem_cons_self e t)
    have hstep : ffStep a e = some e := by
      rcases a with _ | x
      · rfl
      · have hxc := ha x rfl
        rw [ffStep_some]
        rw [if_pos (by omega)]
    have h1 : (e :: t).foldl ffStep a = t.foldl ffStep (ffStep a e) := rfl
    rw [h1, hstep,
      ih (fun x hx => hc x (List.mem_cons_of_mem e hx)) (some e)
        (fun x hx => by injection hx with h2; rw [← h2, he])]
    have h2 : lastOpt (e :: t) = t.foldl (fun _ x => some x) (some e) := rfl
    rw [h2, lastOpt_acc t (some e)]
    cases lastOpt t <;> rfl

lemma lookupA_insertA {α : Type} (m : List (String × α)) (k u : String)
    (v : α) :
    lookupA (insertA m k v) u =
      if k == u then some v else lookupA m u := by
  induction m with
  | nil =>
    by_cases hk : k == u
    · rw [if_pos hk]
      simp [insertA, lookupA, hk]
    · rw [if_neg hk]
      simp [insertA, lookupA, hk]
  | cons p t ih =>
    obtain ⟨k', v'⟩ := p
    unfold insertA
    by_cases hk' : k' == k
    · rw [if_pos hk']
      have hk'2 : k' = k := by simpa using hk'
      subst hk'2
      by_cases hk : k' == u
      · rw [if_pos hk]
        simp [lookupA, hk]
      · rw [if_neg hk]
        simp [lookupA, hk]
    · rw [if_neg hk']
      unfold lookupA
      by_cases hke : k' == u
      · have hku : (k == u) = false := by
          have h1 : k' = u := by simpa using hke
          have h2 : k' ≠ k := by simpa using hk'
          have h3 : k ≠ u := fun hc => h2 (by rw [h1, hc])
          simpa using h3
        rw [if_pos hke, hku]
        have h1 : k' = u := by simpa using hke
        simp [h1]
      · rw [if_neg hke, if_neg hke]
        exact ih

lemma lastOpt_cons {α : Type} (a : α) (t : List α) :
    lastOpt (a :: t) =
      match lastOpt t with
      | some y => some y
      | none => some a := by
  induction t generalizing a with
  | nil => rfl
  | cons x s ih =>
    have h1 : lastOpt (a :: x :: s) = lastOpt (x :: s) := rfl
    rw [h1, ih x]
    cases lastOpt s <;> rfl

lemma lookupA_foldl_insert (events : List LogEntry) :
    ∀ (m : List (String × Int)) (u : String),
      lookupA (events.foldl (fun mm e => insertA mm e.unit e.hp) m) u =
        match lastOpt (events.filter fun e => e.unit == u) with
        | some e => some e.hp
        | none => lookupA m u := by
  induction events with
  | nil => intro m u; rfl
  | cons e t ih =>
    intro m u
    have h1 : (e :: t).foldl (fun mm x => insertA mm x.unit x.hp) m =
        t.foldl (fun mm x => insertA mm x.unit x.hp)
          (insertA m e.unit e.hp) := rfl
    rw [h1, ih]
    by_cases hu : e.unit == u
    · rw [List.filter_cons_of_pos (by simpa using hu)]
      rw [lastOpt_cons]
      cases hl : lastOpt (t.filter fun x => x.unit == u) with
      | some y => rfl
      | none =>
        dsimp only
        rw [lookupA_insertA, if_pos hu]
    · rw [List.filter_cons_of_neg (by simpa using hu)]
      cases hl : lastOpt (t.filter fun x => x.unit == u) with
      | some y => rfl
      | none =>
        dsimp only
        rw [lookupA_insertA, if_neg hu]

lemma lookupA_filterMap (g : String → Option Int) (u : String) :
    ∀ sel : List String,
      lookupA (sel.filterMap fun x => (g x).map fun v => (x, v)) u =
        if u ∈ sel then g u else none := by
  intro sel
  induction sel with
  | nil => simp [lookupA]
  | cons x t ih =>
    cases hg : g x with
    | none =>
      rw [List.filterMap_cons_none (by simp [hg]), ih]
      by_cases hux : u = x
      · subst hux
        simp [hg]
      · simp [List.mem_cons, hux]
    | some v =>
      have hfx : (fun y => (g y).map fun w => (y, w)) x = some (x, v) := by
        simp [hg]
      rw [@List.filterMap_cons_some String (String × Int)
        (fun y => (g y).map fun w => (y, w)) x t (x, v) hfx]
      unfold lookupA
      by_cases hux : x == u
      · rw [if_pos hux]
        have hx : x = u := by simpa using hux
        subst hx
        simp [hg]
      · rw [if_neg hux, ih]
        have hne : u ≠ x := fun h => hux (by simp [h])
        simp [List.mem_cons, hne]

lemma mem_insertInt (a x : Int) :
    ∀ l : List Int, x ∈ insertInt a l ↔ x = a ∨ x ∈ l := by
  intro l
  induction l with
  | nil => simp [insertInt]
  | cons y t ih =>
    unfold insertInt
    split
    · simp [List.mem_cons]
    · simp only [List.mem_cons, ih]
      tauto

lemma mem_sortInts (x : Int) : ∀ l : List Int, x ∈ sortInts l ↔ x ∈ l := by
  intro l
  induction l with
  | nil => simp [sortInts]
  | cons y t ih =>
    have h : sortInts (y :: t) = insertInt y (sortInts t) := rfl
    rw [h, mem_insertInt]
    simp only [List.mem_cons, ih]

lemma mem_dedup_aux (l : List Int) :
    ∀ (acc : List Int) (x : Int),
      x ∈ l.foldl (fun acc t => if acc.contains t then acc else acc ++ [t])
        acc ↔ x ∈ acc ∨ x ∈ l := by
  induction l with
  | nil => simp
  | cons y t ih =>
    intro acc x
    have h1 : (y :: t).foldl
        (fun acc t => if acc.contains t then acc else acc ++ [t]) acc =
        t.foldl (fun acc t => if acc.contains t then acc else acc ++ [t])
          (if acc.contains y then acc else acc ++ [y]) := rfl
    rw [h1, ih]
    by_cases hy : acc.contains y
    · have hym : y ∈ acc := by simpa using hy
      rw [if_pos hy]
      simp only [List.mem_cons]
      constructor
      · tauto
      · rintro (h | h | h)
        · tauto
        · exact Or.inl (h ▸ hym)
        · tauto
    · rw [if_neg hy]
      simp only [List.mem_append, List.mem_singleton, List.mem_cons]
      tauto

lemma mem_dedupFirst (l : List Int) (x : Int) :
    x ∈ dedupFirst l ↔ x ∈ l := by
  unfold dedupFirst
  rw [mem_dedup_aux]
  simp

lemma nodup_dedup_aux (l : List Int) :
    ∀ acc : List Int, acc.Nodup →
      (l.foldl (fun acc t => if acc.contains t then acc else acc ++ [t])
        acc).Nodup := by
  induction l with
  | nil => exact fun acc h => h
  | cons y t ih =>
    intro acc hacc
    have h1 : (y :: t).foldl
        (fun acc t => if acc.contains t then acc else acc ++ [t]) acc =
        t.foldl (fun acc t => if acc.contains t then acc else acc ++ [t])
          (if acc.contains y then acc else acc ++ [y]) := rfl
    rw [h1]
    apply ih
    by_cases hy : acc.contains y
    · rw [if_pos hy]
      exact hacc
    · rw [if_neg hy]
      have hym : y ∉ acc := by simpa using hy
      simp [List.nodup_append, hacc, hym]

lemma nodup_dedupFirst (l : List Int) : (dedupFirst l).Nodup :=
  nodup_dedup_aux l [] List.nodup_nil

lemma pairwise_insertInt (a : Int) :
    ∀ l : List Int, l.Pairwise (· < ·) → (∀ x ∈ l, x ≠ a) →
      (insertInt a l).Pairwise (· < ·) := by
  intro l
  induction l with
  | nil => simp [insertInt]
  | cons y t ih =>
    intro hp hne
    unfold insertInt
    have hyt := List.pairwise_cons.mp hp
    split
    · rename_i hay
      refine List.pairwise_cons.mpr ⟨?_, hp⟩
      intro b hb
      rcases List.mem_cons.mp hb with rfl | hb
      · have := hne b (List.mem_cons_self b t)
        omega
      · have := hyt.1 b hb
        have := hne y (List.mem_cons_self y t)
        omega
    · rename_i hay
      refine List.pairwise_cons.mpr ⟨?_, ?_⟩
      · intro b hb
        rcases (mem_insertInt a b t).mp hb with rfl | hb
        · omega
        · exact hyt.1 b hb
      · exact ih hyt.2 fun x hx => hne x (List.mem_cons_of_mem y hx)

lemma pairwise_sortInts :
    ∀ l : List Int, l.Nodup → (sortInts l).Pairwise (· < ·) := by
  intro l
  induction l with
  | nil => simp [sortInts]
  | cons y t ih =>
    intro hnd
    have h : sortInts (y :: t) = insertInt y (sortInts t) := rfl
    rw [h]
    have hyt := List.nodup_cons.mp hnd
    apply pairwise_insertInt y (sortInts t) (ih hyt.2)
    intro x hx hxy
    exact hyt.1 (hxy ▸ (mem_sortInts x t).mp hx)

lemma lastOpt_mem {α : Type} {l : List α} {y : α}
    (h : lastOpt l = some y) : y ∈ l := by
  induction l with
  | nil => exact Option.noConfusion h
  | cons a t ih =>
    rw [lastOpt_cons] at h
    cases hl : lastOpt t with
    | some z =>
      rw [hl] at h
      injection h with h2
      exact List.mem_cons_of_mem a (ih (h2 ▸ hl))
    | none =>
      rw [hl] at h
      injection h with h2
      exact h2 ▸ List.mem_cons_self a t

lemma lastOpt_none_nil {α : Type} {l : List α} (h : lastOpt l = none) :
    l = [] := by
  cases l with
  | nil => rfl
  | cons a t =>
    rw [lastOpt_cons] at h
    cases hl : lastOpt t <;> rw [hl] at h <;> exact Option.noConfusion h

lemma mem_sortedTimes (l : List Int) (x : Int) :
    x ∈ sortedTimes l ↔ x ∈ l := by
  unfold sortedTimes
  rw [mem_sortInts, mem_dedupFirst]

lemma pairwise_sortedTimes (l : List Int) :
    (sortedTimes l).Pairwise (· < ·) :=
  pairwise_sortInts (dedupFirst l) (nodup_dedupFirst l)

lemma hpPoints_invariant_step (rel : List LogEntry) (t : Int)
    (ts : List Int) (m : List (String × Int)) (b : Option Int)
    (hpw : (t :: ts).Pairwise (· < ·))
    (hb : ∀ t' ∈ t :: ts, ∀ x : Int, b = some x → x < t')
    (hcov : ∀ e ∈ rel, leOB e.time b = true ∨ e.time ∈ t :: ts)
    (hm : ∀ u, lookupA m u =
      (ffEntry (rel.filter fun e => e.unit == u && leOB e.time b)).map
        fun e => e.hp) :
    ∀ u, lookupA ((rel.filter fun e => e.time == t).foldl
        (fun mm e => insertA mm e.unit e.hp) m) u =
      (ffEntry (rel.filter fun e => e.unit == u && leOB e.time (some t))).map
        fun e => e.hp := by
  intro u
  rw [lookupA_foldl_insert]
  have hff : (rel.filter fun e => e.time == t).filter
      (fun e => e.unit == u) =
      rel.filter fun e => (e.unit == u) && (e.time == t) := by
    rw [List.filter_filter]
  have hsplit : (rel.filter fun e => e.unit == u && leOB e.time (some t)) =
      rel.filter fun e => (e.unit == u && leOB e.time b) ||
        ((e.unit == u) && (e.time == t)) := by
    apply List.filter_congr
    intro e he
    by_cases hu : (e.unit == u) = true
    · simp only [hu, Bool.true_and, Bool.and_true]
      have hle : leOB e.time (some t) = decide (e.time ≤ t) := rfl
      rcases hcov e he with hc | hc
      · cases b with
        | none => exact absurd hc (by simp [leOB])
        | some x =>
          have hx : x < t := hb t (List.mem_cons_self t ts) x rfl
          have he2 : e.time ≤ x := by simpa [leOB] using hc
          have h1 : e.time ≤ t := by omega
          rw [hle]
          simp [h1, hc]
      · rcases List.mem_cons.mp hc with hc | hc
        · rw [hle]
          simp [hc]
        · have ht : t < e.time := (List.pairwise_cons.mp hpw).1 e.time hc
          have h2 : (e.time == t) = false := by
            simp only [beq_eq_false_iff_ne, ne_eq]
            omega
          have h1 : decide (e.time ≤ t) = false := by
            simp only [decide_eq_false_iff_not]
            omega
          rw [hle, h1, h2]
          cases b with
          | none => simp [leOB]
          | some x =>
            have hx : x < t := hb t (List.mem_cons_self t ts) x rfl
            have h3 : leOB e.time (some x) = false := by
              simp only [leOB]
              simp only [decide_eq_false_iff_not]
              omega
            simp [h3]
    · simp only [Bool.not_eq_true] at hu
      simp [hu]
  rw [hff, hsplit]
  rw [ffEntry_filter_union _ _ rel (by
    intro p hp q hq hP hQ
    simp only [Bool.and_eq_true] at hP hQ
    have hqt : q.time = t := by simpa using hQ.2
    cases b with
    | none => simp [leOB] at hP
    | some x =>
      have hx : x < t := hb t (List.mem_cons_self t ts) x rfl
      have hpx : p.time ≤ x := by simpa [leOB] using hP.2
      omega)]
  have hQtime : ∀ e ∈ rel.filter fun e => (e.unit == u) && (e.time == t),
      e.time = t := by
    intro e he
    have h5 := List.of_mem_filter he
    simp only [Bool.and_eq_true] at h5
    simpa using h5.2
  have hQ : ffEntry (rel.filter fun e => (e.unit == u) && (e.time == t)) =
      lastOpt (rel.filter fun e => (e.unit == u) && (e.time == t)) := by
    have h4 := ffold_const_time t _ hQtime none
      (fun x hx => Option.noConfusion hx)
    rw [show ffEntry (rel.filter fun e => (e.unit == u) && (e.time == t)) =
      (rel.filter fun e =>
        (e.unit == u) && (e.time == t)).foldl ffStep none from rfl, h4]
    cases lastOpt (rel.filter fun e => (e.unit == u) && (e.time == t)) <;> rfl
  rw [hQ]
  cases hl : lastOpt (rel.filter fun e => (e.unit == u) && (e.time == t)) with
  | none =>
    dsimp only
    rw [mstep_nr]
    exact hm u
  | some y =>
    dsimp only
    have hy := lastOpt_mem hl
    have hyt : y.time = t := hQtime y hy
    cases hffp : ffEntry (rel.filter fun e =>
        e.unit == u && leOB e.time b) with
    | none =>
      rw [mstep_none_left]
      rfl
    | some p =>
      have hpmem := ffEntry_mem hffp
      have hpP := List.of_mem_filter hpmem
      have hpt : p.time < t := by
        simp only [Bool.and_eq_true] at hpP
        rcases hpP with ⟨_, hleb⟩
        cases b with
        | none => simp [leOB] at hleb
        | some x =>
          have hx : x < t := hb t (List.mem_cons_self t ts) x rfl
          have h6 : p.time ≤ x := by simpa [leOB] using hleb
          omega
      rw [mstep_ss, if_pos (by omega)]
      rfl

lemma hpPoints_spec (rel : List LogEntry) (sel : List String)
    (hsel : ∀ e ∈ rel, sel.contains e.unit = true) :
    ∀ (ts : List Int) (m : List (String × Int)) (b : Option Int),
      ts.Pairwise (· < ·) →
      (∀ t ∈ ts, ∀ x : Int, b = some x → x < t) →
      (∀ e ∈ rel, leOB e.time b = true ∨ e.time ∈ ts) →
      (∀ t ∈ ts, ∃ e ∈ rel, e.time = t) →
      (∀ u, lookupA m u =
        (ffEntry (rel.filter fun e => e.unit == u && leOB e.time b)).map
          fun e => e.hp) →
      ((hpPoints rel sel m ts).map Prod.fst = ts ∧
        ∀ T vals, (T, vals) ∈ hpPoints rel sel m ts → ∀ u,
          lookupA vals u = if u ∈ sel then
            (ffEntry (rel.filter fun e =>
              e.unit == u && decide (e.time ≤ T))).map fun e => e.hp
          else none) := by
  intro ts
  induction ts with
  | nil =>
    intro m b _ _ _ _ _
    exact ⟨rfl, fun T vals h => absurd h (List.not_mem_nil _)⟩
  | cons t ts ih =>
    intro m b hpw hb hcov hreal hm
    have hm1 := hpPoints_invariant_step rel t ts m b hpw hb hcov hm
    obtain ⟨e0, he0, he0t⟩ := hreal t (List.mem_cons_self t ts)
    have hu0sel : e0.unit ∈ sel := by
      have h7 := hsel e0 he0
      simpa using h7
    have hlk : (lookupA ((rel.filter fun e => e.time == t).foldl
        (fun mm e => insertA mm e.unit e.hp) m) e0.unit).isSome = true := by
      rw [hm1 e0.unit]
      have h9 : (ffEntry (rel.filter fun e =>
          e.unit == e0.unit && leOB e.time (some t))).isSome = true :=
        ffEntry_isSome_of_mem
          (List.mem_filter.mpr ⟨he0, by simp [leOB, he0t]⟩)
      obtain ⟨w, hw⟩ := Option.isSome_iff_exists.mp h9
      rw [hw]
      rfl
    have hvk : lookupA (sel.filterMap fun u =>
        (lookupA ((rel.filter fun e => e.time == t).foldl
          (fun mm e => insertA mm e.unit e.hp) m) u).map fun v => (u, v))
        e0.unit =
        lookupA ((rel.filter fun e => e.time == t).foldl
          (fun mm e => insertA mm e.unit e.hp) m) e0.unit := by
      rw [lookupA_filterMap]
      rw [if_pos hu0sel]
    have hvne : ((sel.filterMap fun u =>
        (lookupA ((rel.filter fun e => e.time == t).foldl
          (fun mm e => insertA mm e.unit e.hp) m) u).map
            fun v => (u, v))).isEmpty = false := by
      rcases hvals : sel.filterMap fun u =>
          (lookupA ((rel.filter fun e => e.time == t).foldl
            (fun mm e => insertA mm e.unit e.hp) m) u).map
              fun v => (u, v) with _ | ⟨p, vs⟩
      · exfalso
        have h8 := hvk
        rw [hvals] at h8
        rw [show lookupA ([] : List (String × Int)) e0.unit = none from rfl]
          at h8
        rw [← h8] at hlk
        exact Bool.noConfusion hlk
      · rw [hvals]
        rfl
    have hstep : hpPoints rel sel m (t :: ts) =
        (t, sel.filterMap fun u =>
          (lookupA ((rel.filter fun e => e.time == t).foldl
            (fun mm e => insertA mm e.unit e.hp) m) u).map
              fun v => (u, v)) ::
          hpPoints rel sel ((rel.filter fun e => e.time == t).foldl
            (fun mm e => insertA mm e.unit e.hp) m) ts := by
      simp only [hpPoints]
      rw [if_neg (by simp [hvne])]
    have hpwt := List.pairwise_cons.mp hpw
    obtain ⟨ih1, ih2⟩ := ih ((rel.filter fun e => e.time == t).foldl
        (fun mm e => insertA mm e.unit e.hp) m) (some t)
      hpwt.2
      (by
        intro t' ht' x hx
        injection hx with hx2
        rw [← hx2]
        exact hpwt.1 t' ht')
      (by
        intro e he
        rcases hcov e he with hc | hc
        · left
          cases b with
          | none => exact absurd hc (by simp [leOB])
          | some x =>
            have hx : x < t := hb t (List.mem_cons_self t ts) x rfl
            have he2 : e.time ≤ x := by simpa [leOB] using hc
            simp only [leOB]
            simp only [decide_eq_true_eq]
            omega
        · rcases List.mem_cons.mp hc with hc | hc
          · left
            simp [leOB, hc]
          · right
            exact hc)
      (fun t' ht' => hreal t' (List.mem_cons_of_mem t ht'))
      hm1
    constructor
    · rw [hstep]
      rw [List.map_cons, ih1]
    · intro T vals hmem u
      rw [hstep] at hmem
      rcases List.mem_cons.mp hmem with hmem | hmem
      · injection hmem with hT hvals2
        rw [hvals2, lookupA_filterMap, hT]
        by_cases husel : u ∈ sel
        · rw [if_pos husel, if_pos husel, hm1 u]
          rfl
        · rw [if_neg husel, if_neg husel]
      · exact ih2 T vals hmem u

/-- C5: health-mode aggregation emits one point per distinct timestamp
among the selected units' facts (in ascending order), and at a point
with timestamp `T` a selected unit's value is the health of its most
recently observed fact at or before `T` (latest row winning ties); a
unit with no observation at or before `T` is absent from the point, and
only selected units ever appear in a point. -/
theorem hpChart_forward_fill (data : List LogEntry) (sel : List String) :
    ((hpChartData data sel).map Prod.fst =
      sortedTimes ((data.filter fun e => sel.contains e.unit).map
        fun e => e.time)) ∧
    ∀ T vals, (T, vals) ∈ hpChartData data sel → ∀ u,
      lookupA vals u = if u ∈ sel then
        (ffEntry (data.filter fun e =>
          e.unit == u && decide (e.time ≤ T))).map fun e => e.hp
      else none := by
  unfold hpChartData
  by_cases hguard : (sel.isEmpty || data.isEmpty) = true
  · rw [if_pos hguard]
    constructor
    · have hrel : data.filter (fun e => sel.contains e.unit) = [] := by
        rcases (by simpa using hguard :
            sel.isEmpty = true ∨ data.isEmpty = true) with hg | hg
        · apply List.filter_eq_nil_iff.mpr
          intro a _
          have hsel0 : sel = [] := by simpa using hg
          simp [hsel0]
        · have hdata0 : data = [] := by simpa using hg
          simp [hdata0]
      rw [hrel]
      rfl
    · intro T vals h
      exact absurd h (List.not_mem_nil _)
  · rw [if_neg hguard]
    have hsel2 : ∀ e ∈ data.filter (fun e => sel.contains e.unit),
        sel.contains e.unit = true := fun e he => (List.mem_filter.mp he).2
    obtain ⟨h1, h2⟩ := hpPoints_spec
      (data.filter fun e => sel.contains e.unit) sel hsel2
      (sortedTimes ((data.filter fun e => sel.contains e.unit).map
        fun e => e.time)) [] none
      (pairwise_sortedTimes _)
      (fun t _ x hx => Option.noConfusion hx)
      (fun e he => Or.inr ((mem_sortedTimes _ _).mpr
        (List.mem_map_of_mem _ he)))
      (fun t ht => by
        have h4 := (mem_sortedTimes _ _).mp ht
        obtain ⟨e, he, het⟩ := List.mem_map.mp h4
        exact ⟨e, he, het⟩)
      (fun u => by
        have hf : (data.filter fun e => sel.contains e.unit).filter
            (fun e => e.unit == u && leOB e.time none) = [] := by
          apply List.filter_eq_nil_iff.mpr
          intro a _
          simp [leOB]
        rw [hf]
        rfl)
    refine ⟨h1, ?_⟩
    intro T vals hmem u
    rw [h2 T vals hmem u]
    by_cases husel : u ∈ sel
    · rw [if_pos husel, if_pos husel]
      have heq : (data.filter fun e => sel.contains e.unit).filter
          (fun e => e.unit == u && decide (e.time ≤ T)) =
          data.filter fun e => e.unit == u && decide (e.time ≤ T) := by
        rw [List.filter_filter]
        apply List.filter_congr
        intro e _
        by_cases hu : (e.unit == u) = true
        · have heu : e.unit = u := by simpa using hu
          simp [heu, husel]
        · simp only [Bool.not_eq_true] at hu
          simp [hu]
      rw [heq]
    · rw [if_neg husel, if_neg husel]

/-- C5 (witness): the forward-fill law on concrete facts for unit `U` at
times 0 and 10: exactly two points are produced, and the value at the
point with timestamp 10 is the most recent health 80. -/
theorem hpChart_forward_fill_witness :
    (hpChartData demoData ["U"]).map Prod.fst = [0, 10] ∧
    (ffEntry (demoData.filter fun e =>
      e.unit == "U" && decide (e.time ≤ 10))).map (fun e => e.hp) =
      some 80 := by
  have h := hpChart_forward_fill demoData ["U"]
  constructor
  · rw [h.1]
    rfl
  · have h2 := h.2 10 [("U", 80)] (by decide) "U"
    rw [if_pos (by decide)] at h2
    rw [← h2]
    rfl

/-- C10 (witness): concrete rows with an empty time cell and an empty hp
cell are both accepted, with the empty cell read as zero. -/
theorem empty_cell_parses_as_zero_witness :
    standardRow 0 1 2 ["", "A", "50"] = some ⟨0, "A", 50, ["", "A", "50"]⟩ ∧
    standardRow 0 1 2 ["3", "A", ""] = some ⟨3, "A", 0, ["3", "A", ""]⟩ :=
  ⟨(empty_cell_parses_as_zero 0 1 2 ["", "A", "50"] (by decide)).1 50
      (by decide) (by decide),
    (empty_cell_parses_as_zero 0 1 2 ["3", "A", ""] (by decide)).2 3
      (by decide) (by decide)⟩

end FightReport
